import Mathlib

/-!
Verification development for the TIRPClo miner.

The Python sources are shallowly embedded as executable Lean definitions:

* times and coincidence indices are integers (`Int`), symbols are `Nat`;
* Python `float('inf')` sentinels become `Option Int` with `none` = `+inf`;
* Python dictionaries (which preserve insertion order) become association
  lists `List (k × v)` with in-place update semantics (`dictSet`);
* Python object identity of `Tiep` objects is modelled by a unique `tid`
  field: within one entity, two distinct live `Tiep` objects always differ
  on some dataclass field (`entity_tiep_index` disambiguates duplicates of
  a primitive rep), so dataclass `==` coincides with identity for them;
* the `next` pointer chain of `Coincidence` nodes is modelled by a
  `List Co` holding the node and everything reachable after it; a
  `Tiep`'s back-pointer to its coincidence is carried by the occurrence
  entries of the tiep index (`Occurrence`), which store the node and the
  chain suffix behind it;
* the string representations of tieps (`'3+'`, `'_3+'`, `'@3-'`) become
  the structured types `PrimRep` and `CandRep` (`pfx` is the CO / MEET
  marker character, `prim` the primitive symbol-and-type form).
-/

/-- Tiep type: `'+'` (START_REP) or `'-'` (FINISH_REP) in the source. -/
inductive TType where
  | start
  | finish
deriving DecidableEq, Repr

/-- Symbolic time interval, from `data_types.STI`. -/
structure STI where
  start_time : Int
  finish_time : Int
  symbol : Nat
deriving DecidableEq, Repr

/-- Primitive tiep representation, e.g. `'3+'`: symbol plus end-point type. -/
structure PrimRep where
  symbol : Nat
  ttype : TType
deriving DecidableEq, Repr

/-- Candidate-rep marker character: none, CO (`'_'`) or MEET (`'@'`). -/
inductive Pfx where
  | plain
  | co
  | meet
deriving DecidableEq, Repr

/-- Possibly CO- or MEET-marked tiep representation, e.g. `'_3+'`. -/
structure CandRep where
  pfx : Pfx
  prim : PrimRep
deriving DecidableEq, Repr

/-- Time-interval end point, from `data_types.Tiep`.  `tid` models Python
object identity (see the module comment); `orig_tiep` stores the `tid` of
the original tiep when this value is a shadow copy inside a partially
projected coincidence. -/
structure Tiep where
  tid : Nat
  time : Int
  sti : STI
  ttype : TType
  entity_tiep_index : Nat
  orig_tiep : Option Nat
deriving DecidableEq, Repr

/-- Symbol of a tiep (set from its STI in `Tiep.__post_init__`). -/
def Tiep.symbol (t : Tiep) : Nat := t.sti.symbol

/-- Primitive representation of a tiep (`f'{symbol}{type}'`). -/
def Tiep.primitive_rep (t : Tiep) : PrimRep := ⟨t.sti.symbol, t.ttype⟩

/-- Coincidence node, from `data_types.Coincidence`; the `next` pointer is
represented externally (list order / `Occurrence.next`). -/
structure Co where
  index : Int
  is_meet : Bool
  is_co : Bool
  tieps : List Tiep
deriving DecidableEq, Repr

/-- Coincidence sequence, from `data_types.CoincidenceSequence`.
`first_co` is the chain reachable from the first coincidence; `partCo`
models `partial_co`: it is true exactly when `partial_co` is non-null, in
which case `partial_co` is the head of `first_co` (in the source both
fields hold the same object then). -/
structure CoincidenceSequence where
  entity : String
  first_co : List Co
  partCo : Bool
deriving DecidableEq, Repr

/-- Ordered-dictionary update: replace the value of an existing key in
place, otherwise append (Python dict assignment). -/
def dictSet : List (Nat × Nat) → Nat → Nat → List (Nat × Nat)
  | [], k, v => [(k, v)]
  | (k', v') :: rest, k, v =>
    if k' = k then (k, v) :: rest else (k', v') :: dictSet rest k v

/-- Ordered-dictionary lookup (first binding wins, like Python dicts whose
keys are unique). -/
def dget {κ ν : Type} [DecidableEq κ] : List (κ × ν) → κ → Option ν
  | [], _ => none
  | (k', v) :: rest, k => if k' = k then some v else dget rest k

/-- Minimum of a possibly-infinite (`none`) value and an integer, as in
`min(self.first_expected_finish_time, t.sti.finish_time)`. -/
def optMin (a : Option Int) (b : Int) : Option Int :=
  some (match a with
    | none => b
    | some x => min x b)

/-- Python `min(list)` over a non-empty list, with `none` for the empty
list (the caller guards emptiness as the source does). -/
def listMin : List Int → Option Int
  | [] => none
  | x :: rest =>
    some (match listMin rest with
      | none => x
      | some m => min x m)

/-- Pattern instance, from `data_types.PatternInstance`.
`symbol_db_indices` is the insertion-ordered symbol-to-index dictionary;
the two time fields use `none` for `float('inf')`. -/
structure PatternInstance where
  tieps : List Tiep
  symbol_db_indices : List (Nat × Nat)
  minimal_finish_time : Option Int
  pre_matched : List STI
  first_expected_finish_time : Option Int
deriving DecidableEq, Repr

/-- Fresh `PatternInstance()` with the dataclass defaults. -/
def PatternInstance.init : PatternInstance :=
  ⟨[], [], none, [], none⟩

/-- `PatternInstance.extend_pattern_instance` from `data_types.py`
(lines 126-148): append the tiep; if its STI is pre-matched, remove it and
recompute the first expected finish time; otherwise record the symbol
index, append the STI and lower the first expected finish time; finally,
for a START tiep, lower the minimal finish time. -/
def extend_pattern_instance (pi : PatternInstance) (new_tiep : Tiep) : PatternInstance :=
  let pi1 : PatternInstance := { pi with tieps := pi.tieps ++ [new_tiep] }
  let pi2 : PatternInstance :=
    if new_tiep.sti ∈ pi1.pre_matched then
      let pm := pi1.pre_matched.erase new_tiep.sti
      { pi1 with
        pre_matched := pm,
        first_expected_finish_time :=
          if pm.length = 0 then none else listMin (pm.map STI.finish_time) }
    else
      { pi1 with
        symbol_db_indices := dictSet pi1.symbol_db_indices new_tiep.symbol new_tiep.entity_tiep_index,
        pre_matched := pi1.pre_matched ++ [new_tiep.sti],
        first_expected_finish_time := optMin pi1.first_expected_finish_time new_tiep.sti.finish_time }
  if new_tiep.ttype = TType.start then
    { pi2 with minimal_finish_time := optMin pi2.minimal_finish_time new_tiep.sti.finish_time }
  else pi2

/-- Sequence database, from `data_types.SequenceDB`. -/
structure SequenceDB where
  db : List (CoincidenceSequence × PatternInstance)
  entries_prev_indices : Option (List Nat)
  support : Nat
deriving DecidableEq, Repr

/-- Tiep projector, from `data_types.TiepProjector`. `first_indices` is the
insertion-ordered dictionary from db entry index to first occurrence
index. -/
structure TiepProjector where
  supporting_entities : List String
  first_indices : List (Nat × Nat)
deriving DecidableEq, Repr

/-- Occurrence entry of the tiep index: the original tiep together with its
coincidence node (`Tiep.coincidence` in the source) and the chain suffix
reachable behind that node. -/
structure Occurrence where
  t : Tiep
  co : Co
  next : List Co
deriving DecidableEq, Repr

/-- Master tiep of the tiep index, from `tiep_index.MasterTiep`. -/
structure MasterTiep where
  tiep_occurrences : List (String × List Occurrence)
  supporting_entities : List String
deriving DecidableEq, Repr

/-- The tiep index: insertion-ordered dictionary from primitive rep to its
master tiep (`tiep_index.TiepIndex.master_tieps`). -/
def TiepIndex := List (PrimRep × MasterTiep)

/-- `utils.max_gap_holds`: `maximal_gap > candidate.sti.start_time - m`,
with `m = +inf` (`none`) making the constraint hold vacuously. -/
def max_gap_holds (pattern_minimal_finish_time : Option Int) (candidate_tiep : Tiep)
    (maximal_gap : Int) : Bool :=
  match pattern_minimal_finish_time with
  | none => true
  | some m => decide (maximal_gap > candidate_tiep.sti.start_time - m)

example : max_gap_holds none ⟨0, 5, ⟨5, 9, 1⟩, TType.start, 0, none⟩ 0 = true := by decide

example : dictSet [(1, 0), (2, 3)] 1 7 = [(1, 7), (2, 3)] := by decide

/-- Matching test of the loop of `__get_projected_coincidence_seq`
(projection.py line 169): for a CO-marked candidate, the element's
`orig_tiep` must be the occurrence's tiep; otherwise the element must be
the occurrence's tiep itself (Python object equality, i.e. `tid` and
shadow status both agree). -/
def match_pred (tiep : CandRep) (occ : Occurrence) (e : Tiep) : Bool :=
  if tiep.pfx = Pfx.co then e.orig_tiep = some occ.t.tid else e = occ.t

/-- `__is_tiep_valid_for_extension` from projection.py: the tiep's STI must
be pre-matched. -/
def is_tiep_valid_for_extension (tiep : Tiep) (pattern_instance : PatternInstance) : Bool :=
  tiep.sti ∈ pattern_instance.pre_matched

/-- Anchor coincidence of `__get_projected_coincidence_seq` (projection.py
lines 162-165), together with the chain behind it: the sequence's
partial coincidence when it exists and carries the index of the
occurrence's coincidence, the occurrence's own coincidence otherwise. -/
def anchor_of (occ : Occurrence) (coincidence_seq : CoincidenceSequence) : Co × List Co :=
  match (if coincidence_seq.partCo then coincidence_seq.first_co.head? else none) with
  | some c =>
    if c.index = occ.co.index then (c, coincidence_seq.first_co.tail)
    else (occ.co, occ.next)
  | none => (occ.co, occ.next)

/-- Scan of the anchor's tieps in `__get_projected_coincidence_seq`
(projection.py lines 168-194): find the matched position; fail there if
the matched tiep is a FINISH not valid for extension; otherwise return
the remaining tieps to its right, shadow-copied (with `orig_tiep` set to
the original) unless the anchor is already a partial coincidence. -/
def project_within_tieps (pred : Tiep → Bool) (pattern_instance : PatternInstance)
    (anchor_is_co : Bool) : List Tiep → Option (List Tiep)
  | [] => none
  | e :: rest =>
    if pred e then
      if e.ttype = TType.finish ∧ ¬ is_tiep_valid_for_extension e pattern_instance then
        none
      else
        some (rest.map (fun x =>
          if anchor_is_co then x else { x with orig_tiep := some x.tid }))
    else project_within_tieps pred pattern_instance anchor_is_co rest

/-- Assembly step of `__get_projected_coincidence_seq` (projection.py lines
177-192): build the fresh partial coincidence over the scan result, link
it in front of the anchor's tail, and skip it when it carries no tieps. -/
def project_from_anchor (tiep : CandRep) (occ : Occurrence)
    (pattern_instance : PatternInstance) (anchor : Co) (anchorTail : List Co) :
    Option (List Co) :=
  match project_within_tieps (match_pred tiep occ) pattern_instance anchor.is_co anchor.tieps with
  | none => none
  | some newTieps =>
    some (if newTieps.isEmpty then anchorTail
          else { index := anchor.index, is_meet := false, is_co := true,
                 tieps := newTieps } :: anchorTail)

/-- `__get_projected_coincidence_seq` from projection.py (lines 145-194):
the chain with which the projected sequence begins, or `none` when the
projection fails. -/
def get_projected_coincidence_seq (occ : Occurrence) (tiep : CandRep)
    (coincidence_seq : CoincidenceSequence) (pattern_instance : PatternInstance) :
    Option (List Co) :=
  let a := anchor_of occ coincidence_seq
  project_from_anchor tiep occ pattern_instance a.1 a.2

/-- `__project_seq_by_tiep_instance` from projection.py (lines 116-142):
wrap the projected chain into a coincidence sequence whose head is marked
partial exactly when it kept the index of the occurrence's coincidence. -/
def project_seq_by_tiep_instance (occ : Occurrence) (tiep : CandRep)
    (coincidence_seq : CoincidenceSequence) (pattern_instance : PatternInstance) :
    Option CoincidenceSequence :=
  match get_projected_coincidence_seq occ tiep coincidence_seq pattern_instance with
  | none => none
  | some chain =>
    some { entity := coincidence_seq.entity,
           first_co := chain,
           partCo := match chain.head? with
             | some c => c.index = occ.co.index
             | none => false }

/-- Skip test of the inner loop of `project_projected_seq_db`
(projection.py line 89): the occurrence's time exceeds the first expected
finish time (never true against the `+inf` sentinel). -/
def occ_time_exceeds (pattern_instance : PatternInstance) (t : Tiep) : Bool :=
  match pattern_instance.first_expected_finish_time with
  | none => false
  | some v => decide (v < t.time)

/-- Inner occurrence loop of `project_projected_seq_db` (projection.py
lines 88-111) for one record, starting from the projector's first index:
skip too-late occurrences, break for a start candidate violating the
maximal gap, attempt the projection (the extended instance starts from a
`pre_extend_copy` of the record's instance, which is value-equal to it),
and break after the first attempt unless the candidate is a plain start
tiep. -/
def projectRecordLoop (tiep : CandRep) (is_start is_co_meet : Bool) (maximal_gap : Int)
    (coincidence_seq : CoincidenceSequence) (pattern_instance : PatternInstance) :
    List Occurrence → List (CoincidenceSequence × PatternInstance)
  | [] => []
  | occ :: rest =>
    if occ_time_exceeds pattern_instance occ.t then
      projectRecordLoop tiep is_start is_co_meet maximal_gap coincidence_seq pattern_instance rest
    else if is_start ∧ ¬ max_gap_holds pattern_instance.minimal_finish_time occ.t maximal_gap then
      []
    else
      let contrib : List (CoincidenceSequence × PatternInstance) :=
        match project_seq_by_tiep_instance occ tiep coincidence_seq pattern_instance with
        | some cs' => [(cs', extend_pattern_instance pattern_instance occ.t)]
        | none => []
      if is_co_meet ∨ ¬ is_start then contrib
      else contrib ++
        projectRecordLoop tiep is_start is_co_meet maximal_gap coincidence_seq pattern_instance rest

/-- Loop of `project_projected_seq_db` over the projector's entries
(projection.py lines 83-111), threading the accumulated projected
records, previous-index list and supporting entities.  An entry index
outside the database (an `IndexError` in Python) contributes nothing. -/
def projectEntriesLoop (db : List (CoincidenceSequence × PatternInstance)) (tiep : CandRep)
    (is_start is_co_meet : Bool) (maximal_gap : Int) (occsOf : String → List Occurrence) :
    List (Nat × Nat) →
    List (CoincidenceSequence × PatternInstance) × List Nat × List String →
    List (CoincidenceSequence × PatternInstance) × List Nat × List String
  | [], acc => acc
  | (db_entry_index, first_index) :: rest, (es, idxs, sup) =>
    match db[db_entry_index]? with
    | none => projectEntriesLoop db tiep is_start is_co_meet maximal_gap occsOf rest (es, idxs, sup)
    | some (cs, pi) =>
      let contrib := projectRecordLoop tiep is_start is_co_meet maximal_gap cs pi
        ((occsOf cs.entity).drop first_index)
      let sup' := if contrib.isEmpty ∨ cs.entity ∈ sup then sup else sup ++ [cs.entity]
      projectEntriesLoop db tiep is_start is_co_meet maximal_gap occsOf rest
        (es ++ contrib, idxs ++ contrib.map (fun _ => db_entry_index), sup')

/-- Empty master tiep standing for a failed index lookup (a `KeyError` in
Python); it has no occurrences, so nothing is projected through it. -/
def MasterTiep.empty : MasterTiep := ⟨[], []⟩

/-- `project_projected_seq_db` from projection.py (lines 47-113): split
the CO / MEET marker off the candidate, look up its master tiep and fold
the entry loop over the projector's first indices; the support of the
result is the number of entities with at least one successful
projection. -/
def project_projected_seq_db (seq_db : SequenceDB) (tiep : CandRep)
    (tiep_projector : TiepProjector) (index : TiepIndex) (maximal_gap : Int) : SequenceDB :=
  let base_tiep_form := tiep.prim
  let is_meet := tiep.pfx = Pfx.meet
  let is_co := tiep.pfx = Pfx.co
  let master_tiep := (dget index base_tiep_form).getD MasterTiep.empty
  let is_start_tiep := base_tiep_form.ttype = TType.start
  let occsOf := fun e => (dget master_tiep.tiep_occurrences e).getD []
  let r := projectEntriesLoop seq_db.db tiep is_start_tiep (is_co ∨ is_meet) maximal_gap occsOf
    tiep_projector.first_indices ([], [], [])
  { db := r.1, entries_prev_indices := some r.2.1, support := r.2.2.length }

/-- `project_initial_seq_db` from projection.py (lines 9-44): project every
occurrence of the tiep in every supporting record, pairing each success
with a fresh pattern instance extended by the occurrence; the support is
the master tiep's number of supporting entities. -/
def project_initial_seq_db (initial_seq_db : SequenceDB) (tiep : PrimRep)
    (supporting_entities : List String) (index : TiepIndex) : SequenceDB :=
  let master_tiep := (dget index tiep).getD MasterTiep.empty
  let projected_db := initial_seq_db.db.foldl (fun acc r =>
    if r.1.entity ∈ supporting_entities then
      acc ++ ((dget master_tiep.tiep_occurrences r.1.entity).getD []).foldl (fun acc2 occ =>
        match project_seq_by_tiep_instance occ ⟨Pfx.plain, tiep⟩ r.1 r.2 with
        | some cs' => acc2 ++ [(cs', extend_pattern_instance PatternInstance.init occ.t)]
        | none => acc2) []
    else acc) []
  { db := projected_db, entries_prev_indices := none,
    support := master_tiep.supporting_entities.length }

/-- `__all_in_pairs` from tirpclo.py (lines 86-98): the pattern instance of
the first record has no pre-matched STI left.  Python indexes `db[0]`
unconditionally; an empty database (on which Python would raise, emitting
nothing) yields `false` here. -/
def all_in_pairs (pattern_db : List (CoincidenceSequence × PatternInstance)) : Bool :=
  match pattern_db with
  | [] => false
  | r :: _ => r.2.pre_matched.length = 0

/-- Removal of the infrequent tieps of one coincidence: the in-place
removal loop of `filter_infrequent_tieps_from_initial_seq_db`
(data_types.py lines 180-187) visits every original position once and
removes the tieps whose primitive rep is no longer indexed, i.e. it
filters the list. -/
def filter_coincidence_tieps (freq : PrimRep → Bool) (tieps : List Tiep) : List Tiep :=
  tieps.filter (fun t => freq t.primitive_rep)

/-- Walk of one coincidence chain in
`filter_infrequent_tieps_from_initial_seq_db` (data_types.py lines
178-204), carrying the running number of removed coincidences and whether
the immediately preceding coincidence was removed: emptied coincidences
are dropped, surviving ones keep their filtered tieps, have their index
lowered by the number of removals so far, and lose their meet flag when
their predecessor was just removed. -/
def filter_chain_aux (freq : PrimRep → Bool) :
    Nat → Bool → List Co → List Co
  | _, _, [] => []
  | removed, removedRecent, c :: rest =>
    let ts := filter_coincidence_tieps freq c.tieps
    if ts.isEmpty then filter_chain_aux freq (removed + 1) true rest
    else
      { c with
        tieps := ts,
        index := (c.index - removed),
        is_meet := c.is_meet && !removedRecent } ::
      filter_chain_aux freq removed false rest

/-- Chain reachable from a record's `first_co` after
`filter_infrequent_tieps_from_initial_seq_db` ran on it.  When at least
one coincidence survives, `first_co` is moved to the first survivor and
all emptied coincidences are spliced out.  When no coincidence survives,
the source never reassigns `first_co` nor any `next` pointer (the
`previous_coincidence` variable stays `None`), so the whole original
chain stays reachable, each coincidence with its tiep list emptied in
place. -/
def filter_infrequent_record (freq : PrimRep → Bool) (chain : List Co) : List Co :=
  let res := filter_chain_aux freq 0 false chain
  if res.isEmpty then
    chain.map (fun c => { c with tieps := filter_coincidence_tieps freq c.tieps })
  else res

/-- `SequenceDB.filter_infrequent_tieps_from_initial_seq_db` from
data_types.py (lines 166-204), applied to every record of the initial
database. -/
def filter_infrequent_tieps_from_initial_seq_db (db : SequenceDB)
    (freq : PrimRep → Bool) : SequenceDB :=
  { db with db := db.db.map (fun r =>
      ({ r.1 with first_co := filter_infrequent_record freq r.1.first_co }, r.2)) }

/-- Candidate-generation oracle: the type of
`candidate_generation.get_tiep_projectors`, over which the miner model is
parameterised (the projector dictionary is an insertion-ordered
association list). -/
def GenOracle :=
  SequenceDB → CandRep → Option (List (CandRep × TiepProjector)) →
  List (CandRep × TiepProjector)

/-- Candidate loop of `__extend_tirp` (tirpclo.py lines 75-83): skip
projectors below the support threshold, project, and descend (through the
continuation `k`) only when the projected support meets the threshold. -/
def extendLoop (k : SequenceDB → CandRep → List SequenceDB) (min_support : Int)
    (index : TiepIndex) (maximal_gap : Int) (db : SequenceDB) :
    List (CandRep × TiepProjector) → List SequenceDB
  | [] => []
  | (tiep, tiep_projector) :: rest =>
    (if (tiep_projector.supporting_entities.length : Int) < min_support then []
     else
       let projected_seq_db := project_projected_seq_db db tiep tiep_projector index maximal_gap
       if min_support ≤ (projected_seq_db.support : Int) then k projected_seq_db tiep
       else []) ++
    extendLoop k min_support index maximal_gap db rest

/-- `__extend_tirp` from tirpclo.py (lines 46-83), fuelled: compute the
tiep projectors, emit the database when the pattern is balanced
(`__all_in_pairs`), then recurse over the surviving candidates.  The
returned list collects the emitted TIRP databases in writing order. -/
def extend_tirp (gen : GenOracle) (index : TiepIndex) (min_support maximal_gap : Int) :
    Nat → SequenceDB → CandRep → Option (List (CandRep × TiepProjector)) → List SequenceDB
  | 0, _, _, _ => []
  | fuel + 1, pattern_seq_db, pattern_last_tiep, previous_tiep_projectors =>
    let tiep_projectors := gen pattern_seq_db pattern_last_tiep previous_tiep_projectors
    (if all_in_pairs pattern_seq_db.db then [pattern_seq_db] else []) ++
    extendLoop
      (fun p t => extend_tirp gen index min_support maximal_gap fuel p t (some tiep_projectors))
      min_support index maximal_gap pattern_seq_db tiep_projectors

/-- `discover_tirps` from tirpclo.py (lines 11-43): prune the primitives
below the support threshold from the index, rewrite the initial database,
then project the initial database by every surviving START primitive and
extend; the emitted TIRP databases are collected in order. -/
def discover_tirps (gen : GenOracle) (index : TiepIndex) (initial_seq_db : SequenceDB)
    (min_support maximal_gap : Int) (fuel : Nat) : List SequenceDB :=
  let pruned := index.filter
    (fun p => !((p.2.supporting_entities.length : Int) < min_support))
  let filtered_db := filter_infrequent_tieps_from_initial_seq_db initial_seq_db
    (fun r => (dget pruned r).isSome)
  (pruned.filter (fun p => p.1.ttype = TType.start)).foldl (fun acc p =>
    acc ++ extend_tirp gen pruned min_support maximal_gap fuel
      (project_initial_seq_db filtered_db p.1 p.2.supporting_entities pruned)
      ⟨Pfx.plain, p.1⟩ none) []

/-- `min_support` as computed by `run_tirpclo` (tirpclo/run.py line 32):
`math.ceil(num_entities * min_support_percentage)`, with the float
percentage modelled as a rational. -/
def run_min_support (num_entities : Nat) (min_support_percentage : ℚ) : Int :=
  Int.ceil ((num_entities : ℚ) * min_support_percentage)

example : run_min_support 65 (1 / 2) = 33 := by
  rw [run_min_support, Int.ceil_eq_iff] ; norm_num

/-- Update applied by `__add_tiep_instance_to_tiep_projectors`
(candidate_generation.py lines 372-398) to one projector: record the
entity on first sight, and set the entry's first index unless
`validate_first` is set and the entry already has one. -/
def updated_tiep_projector (entity_id : String) (entry_index first_index : Nat)
    (validate_first : Bool) (tp : TiepProjector) : TiepProjector :=
  let tp1 := if entity_id ∈ tp.supporting_entities then tp
    else { tp with supporting_entities := tp.supporting_entities ++ [entity_id] }
  if !validate_first || (dget tp1.first_indices entry_index).isNone then
    { tp1 with first_indices := dictSet tp1.first_indices entry_index first_index }
  else tp1

/-- `__add_tiep_instance_to_tiep_projectors` from candidate_generation.py
(lines 372-398): create the tiep's projector on first sight (appended in
insertion order) and update it in place. -/
def add_tiep_instance_to_tiep_projectors (tiep_rep : CandRep) (entity_id : String)
    (entry_index : Nat) (first_index : Nat) (validate_first : Bool) :
    List (CandRep × TiepProjector) → List (CandRep × TiepProjector)
  | [] => [(tiep_rep, updated_tiep_projector entity_id entry_index first_index
      validate_first ⟨[], []⟩)]
  | (k, v) :: rest =>
    if k = tiep_rep then
      (k, updated_tiep_projector entity_id entry_index first_index validate_first v) :: rest
    else (k, v) :: add_tiep_instance_to_tiep_projectors tiep_rep entity_id entry_index
      first_index validate_first rest

/-- Scan of a FINISH coincidence's tieps in `__get_initial_tiep_projectors`
(candidate_generation.py lines 341-349): record the first tiep
complementing the pattern's last (START) tiep, stopping there; the second
component reports whether the complement was found. -/
def initial_scan_finish_co (pattern_last_tiep : CandRep) (entity_id : String)
    (entry_index : Nat) :
    List Tiep → List (CandRep × TiepProjector) → List (CandRep × TiepProjector) × Bool
  | [], tps => (tps, false)
  | t :: rest, tps =>
    if pattern_last_tiep = ⟨Pfx.plain, ⟨t.sti.symbol, TType.start⟩⟩ then
      (add_tiep_instance_to_tiep_projectors ⟨Pfx.plain, t.primitive_rep⟩ entity_id
        entry_index t.entity_tiep_index false tps, true)
    else initial_scan_finish_co pattern_last_tiep entity_id entry_index rest tps

/-- Scan of a START coincidence's tieps in `__get_initial_tiep_projectors`
(candidate_generation.py lines 351-363): skip tieps equal to the
pattern's last tiep, stop on a maximal-gap violation (second component),
and otherwise record the tiep, CO-marked when the coincidence is a
partial one.  The source records the original tiep's
`entity_tiep_index`; a shadow copy keeps that field, so it equals the
element's own. -/
def initial_scan_start_co (pattern_last_tiep : CandRep) (maximal_gap : Int)
    (minimal_finish_time : Option Int) (co_is_co : Bool) (entity_id : String)
    (entry_index : Nat) :
    List Tiep → List (CandRep × TiepProjector) → List (CandRep × TiepProjector) × Bool
  | [], tps => (tps, false)
  | t :: rest, tps =>
    if pattern_last_tiep = ⟨Pfx.plain, t.primitive_rep⟩ then
      initial_scan_start_co pattern_last_tiep maximal_gap minimal_finish_time co_is_co
        entity_id entry_index rest tps
    else if !(max_gap_holds minimal_finish_time t maximal_gap) then (tps, true)
    else
      initial_scan_start_co pattern_last_tiep maximal_gap minimal_finish_time co_is_co
        entity_id entry_index rest
        (add_tiep_instance_to_tiep_projectors
          ⟨if co_is_co then Pfx.co else Pfx.plain, t.primitive_rep⟩ entity_id
          entry_index t.entity_tiep_index true tps)

/-- Coincidence walk of `__get_initial_tiep_projectors`
(candidate_generation.py lines 326-365) over one record, carrying the
`found_complement` and `beyond_gap` flags.  A coincidence's type is read
off its first tiep (coincidences of the walked chains are non-empty). -/
def initial_record_walk (pattern_last_tiep : CandRep) (maximal_gap : Int)
    (minimal_finish_time : Option Int) (entity_id : String) (entry_index : Nat) :
    List Co → Bool → Bool → List (CandRep × TiepProjector) → List (CandRep × TiepProjector)
  | [], _, _, tps => tps
  | c :: rest, found_complement, beyond_gap, tps =>
    if beyond_gap && found_complement then tps
    else
      let is_finish_tieps_coincidence :=
        ((c.tieps.head?).map (fun t => t.ttype == TType.finish)).getD false
      if (found_complement && is_finish_tieps_coincidence) ||
          (beyond_gap && !is_finish_tieps_coincidence) then
        initial_record_walk pattern_last_tiep maximal_gap minimal_finish_time entity_id
          entry_index rest found_complement beyond_gap tps
      else if is_finish_tieps_coincidence then
        let r := initial_scan_finish_co pattern_last_tiep entity_id entry_index c.tieps tps
        initial_record_walk pattern_last_tiep maximal_gap minimal_finish_time entity_id
          entry_index rest (found_complement || r.2) beyond_gap r.1
      else
        let r := initial_scan_start_co pattern_last_tiep maximal_gap minimal_finish_time
          c.is_co entity_id entry_index c.tieps tps
        initial_record_walk pattern_last_tiep maximal_gap minimal_finish_time entity_id
          entry_index rest found_complement (beyond_gap || r.2) r.1

/-- `__get_initial_tiep_projectors` from candidate_generation.py (lines
304-369): walk every record's chain with fresh flags. -/
def get_initial_tiep_projectors (seq_db : SequenceDB) (pattern_last_tiep : CandRep)
    (maximal_gap : Int) : List (CandRep × TiepProjector) :=
  (seq_db.db.foldl (fun acc r =>
    (initial_record_walk pattern_last_tiep maximal_gap r.2.minimal_finish_time r.1.entity
      acc.2 r.1.first_co false false acc.1, acc.2 + 1)) ([], 0)).1

/-- First non-special coincidence of a record's chain
(candidate_generation.py lines 119-137): skip a leading partial (`is_co`)
coincidence, then a meet coincidence. -/
def first_non_special (chain : List Co) : Option Co :=
  match chain with
  | [] => none
  | c :: rest =>
    match (if c.is_co then rest else c :: rest) with
    | [] => none
    | c2 :: rest2 => if c2.is_meet then rest2.head? else some c2

/-- Leading coincidence after skipping only a partial (`is_co`) one, as
`__add_complement_finish_tiep_to_tiep_projectors` does
(candidate_generation.py lines 206-218: no meet skip there). -/
def first_after_co (chain : List Co) : Option Co :=
  match chain with
  | [] => none
  | c :: rest => if c.is_co then rest.head? else some c

/-- Occurrence scan shared by the START cases of
`__populate_tiep_projectors_based_on_recent` and
`__add_complement_start_tiep_to_tiep_projectors` (candidate_generation.py
lines 164-172 and 289-297): from the given absolute index, stop on a
maximal-gap violation, and return the first occurrence whose coincidence
index reaches the record's first coincidence index. -/
def start_occurrence_scan (maximal_gap : Int) (minimal_finish_time : Option Int)
    (start_co_index : Int) : List Occurrence → Nat → Option Nat
  | [], _ => none
  | occ :: rest, i =>
    if !(max_gap_holds minimal_finish_time occ.t maximal_gap) then none
    else if start_co_index ≤ occ.co.index then some i
    else start_occurrence_scan maximal_gap minimal_finish_time start_co_index rest (i + 1)

/-- Record loop of `__populate_tiep_projectors_based_on_recent`
(candidate_generation.py lines 111-176) for one previous projector,
carrying the entry index and the non-supporting-record count (the loop
stops once that count exceeds the allowance).  For a FINISH key the
specific occurrence is read through `symbol_db_indices` (the source takes
the symbol off the key's first occurrence, which carries the key's
symbol); for a START key the occurrences are scanned from the previous
first index.  Lookups that would raise in Python (absent on the data the
miner builds) contribute a non-supporting record. -/
def populate_records_loop (tiep : CandRep) (is_finish_tiep : Bool) (master_tiep : MasterTiep)
    (previous_tiep_projector : TiepProjector) (entries_prev : List Nat)
    (maximal_gap allowed_non_supporting_records : Int) :
    List (CoincidenceSequence × PatternInstance) → Nat → Nat →
    List (CandRep × TiepProjector) → List (CandRep × TiepProjector)
  | [], _, _, tps => tps
  | (cs, pi) :: rest, entry_index, non_supporting_records, tps =>
    if allowed_non_supporting_records < (non_supporting_records : Int) then tps
    else
      match first_non_special cs.first_co with
      | none =>
        populate_records_loop tiep is_finish_tiep master_tiep previous_tiep_projector
          entries_prev maximal_gap allowed_non_supporting_records rest (entry_index + 1)
          (non_supporting_records + 1) tps
      | some current =>
        let start_co_index := current.index
        let previous_entry_index := entries_prev.getD entry_index 0
        if (dget previous_tiep_projector.first_indices previous_entry_index).isNone then
          populate_records_loop tiep is_finish_tiep master_tiep previous_tiep_projector
            entries_prev maximal_gap allowed_non_supporting_records rest (entry_index + 1)
            (non_supporting_records + 1) tps
        else
          let tiep_instances := (dget master_tiep.tiep_occurrences cs.entity).getD []
          if is_finish_tiep then
            let tiep_index := (dget pi.symbol_db_indices tiep.prim.symbol).getD 0
            match tiep_instances[tiep_index]? with
            | some occ =>
              if start_co_index ≤ occ.co.index then
                populate_records_loop tiep is_finish_tiep master_tiep
                  previous_tiep_projector entries_prev maximal_gap
                  allowed_non_supporting_records rest (entry_index + 1)
                  non_supporting_records
                  (add_tiep_instance_to_tiep_projectors tiep cs.entity entry_index
                    tiep_index false tps)
              else
                populate_records_loop tiep is_finish_tiep master_tiep
                  previous_tiep_projector entries_prev maximal_gap
                  allowed_non_supporting_records rest (entry_index + 1)
                  (non_supporting_records + 1) tps
            | none =>
              populate_records_loop tiep is_finish_tiep master_tiep previous_tiep_projector
                entries_prev maximal_gap allowed_non_supporting_records rest
                (entry_index + 1) (non_supporting_records + 1) tps
          else
            let prev_start_index :=
              (dget previous_tiep_projector.first_indices previous_entry_index).getD 0
            match start_occurrence_scan maximal_gap pi.minimal_finish_time start_co_index
                (tiep_instances.drop prev_start_index) prev_start_index with
            | some i =>
              populate_records_loop tiep is_finish_tiep master_tiep previous_tiep_projector
                entries_prev maximal_gap allowed_non_supporting_records rest
                (entry_index + 1) non_supporting_records
                (add_tiep_instance_to_tiep_projectors tiep cs.entity entry_index i
                  false tps)
            | none =>
              populate_records_loop tiep is_finish_tiep master_tiep previous_tiep_projector
                entries_prev maximal_gap allowed_non_supporting_records rest
                (entry_index + 1) (non_supporting_records + 1) tps

/-- `__populate_tiep_projectors_based_on_recent` from
candidate_generation.py (lines 73-176): for each previously frequent,
non-CO/MEET key other than the pattern's last tiep, collect the first
legal occurrence per surviving record. -/
def populate_tiep_projectors_based_on_recent (seq_db : SequenceDB)
    (pattern_last_tiep : CandRep) (previous_tiep_projectors : List (CandRep × TiepProjector))
    (index : TiepIndex) (min_support maximal_gap : Int)
    (tps : List (CandRep × TiepProjector)) (allowed_non_supporting_records : Int) :
    List (CandRep × TiepProjector) :=
  previous_tiep_projectors.foldl (fun tps p =>
    if (p.2.supporting_entities.length : Int) < min_support then tps
    else if p.1.pfx = Pfx.co ∨ p.1.pfx = Pfx.meet then tps
    else if pattern_last_tiep = p.1 then tps
    else
      populate_records_loop p.1 (p.1.prim.ttype == TType.finish)
        ((dget index p.1.prim).getD MasterTiep.empty) p.2
        (seq_db.entries_prev_indices.getD []) maximal_gap
        allowed_non_supporting_records seq_db.db 0 0 tps) tps

/-- Record loop of `__add_complement_finish_tiep_to_tiep_projectors`
(candidate_generation.py lines 179-231): per record, skip only a leading
partial coincidence, then add the specific FINISH occurrence complementing
the recently added START, read through `symbol_db_indices`. -/
def add_complement_finish_records (finish_tiep_rep : CandRep) (master_tiep : MasterTiep)
    (allowed_non_supporting_records : Int) :
    List (CoincidenceSequence × PatternInstance) → Nat → Nat →
    List (CandRep × TiepProjector) → List (CandRep × TiepProjector)
  | [], _, _, tps => tps
  | (cs, pi) :: rest, entry_index, non_supporting_records, tps =>
    if allowed_non_supporting_records < (non_supporting_records : Int) then tps
    else
      match first_after_co cs.first_co with
      | none =>
        add_complement_finish_records finish_tiep_rep master_tiep
          allowed_non_supporting_records rest (entry_index + 1)
          (non_supporting_records + 1) tps
      | some current =>
        let start_co_index := current.index
        let tiep_instances := (dget master_tiep.tiep_occurrences cs.entity).getD []
        let tiep_index := (dget pi.symbol_db_indices finish_tiep_rep.prim.symbol).getD 0
        match tiep_instances[tiep_index]? with
        | some occ =>
          if start_co_index ≤ occ.co.index then
            add_complement_finish_records finish_tiep_rep master_tiep
              allowed_non_supporting_records rest (entry_index + 1) non_supporting_records
              (add_tiep_instance_to_tiep_projectors finish_tiep_rep cs.entity entry_index
                tiep_index false tps)
          else
            add_complement_finish_records finish_tiep_rep master_tiep
              allowed_non_supporting_records rest (entry_index + 1)
              (non_supporting_records + 1) tps
        | none =>
          add_complement_finish_records finish_tiep_rep master_tiep
            allowed_non_supporting_records rest (entry_index + 1)
            (non_supporting_records + 1) tps

/-- Record loop of `__add_complement_start_tiep_to_tiep_projectors`
(candidate_generation.py lines 234-301): per record, skip the leading
partial and meet coincidences, then scan the START occurrences from the
successor of the last matched tiep's entity index. -/
def add_complement_start_records (start_tiep_rep : CandRep) (master_tiep : MasterTiep)
    (maximal_gap allowed_non_supporting_records : Int) :
    List (CoincidenceSequence × PatternInstance) → Nat → Nat →
    List (CandRep × TiepProjector) → List (CandRep × TiepProjector)
  | [], _, _, tps => tps
  | (cs, pi) :: rest, entry_index, non_supporting_records, tps =>
    if allowed_non_supporting_records < (non_supporting_records : Int) then tps
    else
      match first_non_special cs.first_co with
      | none =>
        add_complement_start_records start_tiep_rep master_tiep maximal_gap
          allowed_non_supporting_records rest (entry_index + 1)
          (non_supporting_records + 1) tps
      | some current =>
        let start_co_index := current.index
        let tiep_instances := (dget master_tiep.tiep_occurrences cs.entity).getD []
        let tiep_index :=
          (((pi.tieps.getLast?).map (fun t => t.entity_tiep_index)).getD 0) + 1
        match start_occurrence_scan maximal_gap pi.minimal_finish_time start_co_index
            (tiep_instances.drop tiep_index) tiep_index with
        | some i =>
          add_complement_start_records start_tiep_rep master_tiep maximal_gap
            allowed_non_supporting_records rest (entry_index + 1) non_supporting_records
            (add_tiep_instance_to_tiep_projectors start_tiep_rep cs.entity entry_index i
              false tps)
        | none =>
          add_complement_start_records start_tiep_rep master_tiep maximal_gap
            allowed_non_supporting_records rest (entry_index + 1)
            (non_supporting_records + 1) tps

/-- `__add_relevant_meet_co_tieps_to_tiep_projectors` from
candidate_generation.py (lines 401-445): CO-mark the tieps of a leading
partial coincidence (a FINISH shadow only when its STI is pre-matched) and
MEET-mark the tieps of a leading or following meet coincidence.  The
source records a shadow's original `entity_tiep_index`, which the shadow
copy shares. -/
def add_relevant_meet_co_tieps_to_tiep_projectors (current_coincidence : Co)
    (chain_rest : List Co) (entity_id : String) (entry_index : Nat)
    (tps : List (CandRep × TiepProjector)) (pattern_instance : PatternInstance) :
    List (CandRep × TiepProjector) :=
  if current_coincidence.is_co then
    let is_finish_tieps_coincidence :=
      ((current_coincidence.tieps.head?).map (fun t => t.ttype == TType.finish)).getD false
    let tps1 := current_coincidence.tieps.foldl (fun tps t =>
      if is_finish_tieps_coincidence ∧ t.sti ∉ pattern_instance.pre_matched then tps
      else add_tiep_instance_to_tiep_projectors ⟨Pfx.co, t.primitive_rep⟩ entity_id
        entry_index t.entity_tiep_index false tps) tps
    match chain_rest with
    | c2 :: _ =>
      if c2.is_meet then
        c2.tieps.foldl (fun tps t =>
          add_tiep_instance_to_tiep_projectors ⟨Pfx.meet, t.primitive_rep⟩ entity_id
            entry_index t.entity_tiep_index false tps) tps1
      else tps1
    | [] => tps1
  else if current_coincidence.is_meet then
    current_coincidence.tieps.foldl (fun tps t =>
      add_tiep_instance_to_tiep_projectors ⟨Pfx.meet, t.primitive_rep⟩ entity_id
        entry_index t.entity_tiep_index false tps) tps
  else tps

/-- `get_tiep_projectors` from candidate_generation.py (lines 8-70): the
initial regime without previous projectors; otherwise strip the CO/MEET
marker off the last tiep, populate from the previous projectors, add the
complement of the last tiep, and finally the CO/MEET candidates of each
record's leading coincidence. -/
def get_tiep_projectors (seq_db : SequenceDB) (pattern_last_tiep : CandRep)
    (previous_tiep_projectors : Option (List (CandRep × TiepProjector)))
    (index : TiepIndex) (min_support maximal_gap : Int) :
    List (CandRep × TiepProjector) :=
  match previous_tiep_projectors with
  | none => get_initial_tiep_projectors seq_db pattern_last_tiep maximal_gap
  | some previous =>
    let last : CandRep :=
      if pattern_last_tiep.pfx = Pfx.co ∨ pattern_last_tiep.pfx = Pfx.meet then
        ⟨Pfx.plain, pattern_last_tiep.prim⟩
      else pattern_last_tiep
    let allowed_non_supporting_records : Int := (seq_db.db.length : Int) - min_support
    let tps0 := populate_tiep_projectors_based_on_recent seq_db last previous index
      min_support maximal_gap [] allowed_non_supporting_records
    let tps1 :=
      if last.prim.ttype = TType.start then
        add_complement_finish_records ⟨Pfx.plain, ⟨last.prim.symbol, TType.finish⟩⟩
          ((dget index ⟨last.prim.symbol, TType.finish⟩).getD MasterTiep.empty)
          allowed_non_supporting_records seq_db.db 0 0 tps0
      else tps0
    let tps2 :=
      if last.prim.ttype = TType.finish then
        add_complement_start_records ⟨Pfx.plain, ⟨last.prim.symbol, TType.start⟩⟩
          ((dget index ⟨last.prim.symbol, TType.start⟩).getD MasterTiep.empty)
          maximal_gap allowed_non_supporting_records seq_db.db 0 0 tps1
      else tps1
    (seq_db.db.foldl (fun acc r =>
      match r.1.first_co with
      | [] => (acc.1, acc.2 + 1)
      | c :: restChain =>
        (add_relevant_meet_co_tieps_to_tiep_projectors c restChain r.1.entity acc.2 acc.1
          r.2, acc.2 + 1)) (tps2, 0)).1

/-- The miner with its real candidate generator: `discover_tirps`
instantiated with `get_tiep_projectors` over the pruned index, as
tirpclo.py wires it (the pruning pops the infrequent primitives from the
very index object later passed to candidate generation). -/
def discover_tirps_real (index : TiepIndex) (initial_seq_db : SequenceDB)
    (min_support maximal_gap : Int) (fuel : Nat) : List SequenceDB :=
  discover_tirps
    (fun db last prev => get_tiep_projectors db last prev
      (index.filter (fun p => !((p.2.supporting_entities.length : Int) < min_support)))
      min_support maximal_gap)
    index initial_seq_db min_support maximal_gap fuel

/-- Modelled from the spec: STI of the `tirpclo` package
(`src/tirpclo/data_types.py` is absent from the sources); spec section 3
additionally assigns each STI an `entity_sti_index`, its insertion order
into the tiep index within its entity. -/
structure STIC where
  start_time : Int
  finish_time : Int
  symbol : Nat
  entity_sti_index : Nat
deriving DecidableEq, Repr

/-- Modelled from the spec: `BackwardExtensionTiep` of the `tirpclo`
package (`src/tirpclo/data_types.py` is absent from the sources); spec
section 3 defines it as a map from db entry index to a list of STIs. -/
structure BackwardExtensionTiep where
  stis_per_entry : List (Nat × List STIC)
deriving DecidableEq, Repr

/-- `__do_be_fe_match_in_all_entities` from tirpclo/closure_checking.py
(lines 39-69): some backward-extension record set of the start tiep
intersects the forward-extension projector (an STI with
`entity_sti_index` at or past the projector's first index) in every
supporting entity, i.e. in `db.support` many distinct entities. -/
def do_be_fe_match_in_all_entities (start_tiep_be_tieps : List BackwardExtensionTiep)
    (finish_fe_tiep_projector : TiepProjector) (pattern_seq_db : SequenceDB) : Bool :=
  start_tiep_be_tieps.any (fun be_tiep =>
    let matching_entities := finish_fe_tiep_projector.first_indices.foldl
      (fun m p =>
        match dget be_tiep.stis_per_entry p.1 with
        | none => m
        | some stis =>
          match pattern_seq_db.db[p.1]? with
          | none => m
          | some r =>
            if r.1.entity ∈ m then m
            else if stis.any (fun sti => p.2 ≤ sti.entity_sti_index) then m ++ [r.1.entity]
            else m) []
    pattern_seq_db.support = matching_entities.length)

/-- `may_tirp_be_closed` from tirpclo/closure_checking.py (lines 7-36),
recursing over the projector dictionary in iteration order: a projector
whose supporting-entity count equals the database support refutes
closability when its key is a START tiep, or when it is a FINISH tiep
whose complement start primitive (the CO marker stripped, a MEET marker
kept, which then never matches a primitive key) has a backward-extension
entry matching the projector in all supporting entities. -/
def may_tirp_be_closed (pattern_seq_db : SequenceDB)
    (be_tieps_lists : List (PrimRep × List BackwardExtensionTiep)) :
    List (CandRep × TiepProjector) → Bool
  | [] => true
  | (tiep, tiep_projector) :: rest =>
    if pattern_seq_db.support = tiep_projector.supporting_entities.length then
      if tiep.prim.ttype = TType.start then false
      else
        let keyPfx := if tiep.pfx = Pfx.co then Pfx.plain else tiep.pfx
        let complement_start : PrimRep := ⟨tiep.prim.symbol, TType.start⟩
        match (if keyPfx = Pfx.plain then dget be_tieps_lists complement_start else none) with
        | some lst =>
          if do_be_fe_match_in_all_entities lst tiep_projector pattern_seq_db then false
          else may_tirp_be_closed pattern_seq_db be_tieps_lists rest
        | none => may_tirp_be_closed pattern_seq_db be_tieps_lists rest
    else may_tirp_be_closed pattern_seq_db be_tieps_lists rest

/-- Allen relation symbols written by the output writer
(tirpclo/constants.py). -/
inductive AllenRel where
  | before
  | meets
  | overlaps
  | finishby
  | contains
  | equal
  | starts
deriving DecidableEq, Repr

/-- `__get_relation` from tirpclo/tirp_writing.py (lines 57-80): the
if-chain deciding the Allen relation between two STIs. -/
def get_relation (sti1 sti2 : STI) : AllenRel :=
  if sti1.finish_time < sti2.start_time then AllenRel.before
  else if sti1.finish_time = sti2.start_time then AllenRel.meets
  else if sti1.start_time = sti2.start_time ∧ sti1.finish_time = sti2.finish_time then
    AllenRel.equal
  else if sti1.start_time < sti2.start_time ∧ sti1.finish_time > sti2.finish_time then
    AllenRel.contains
  else if sti1.start_time = sti2.start_time ∧ sti1.finish_time < sti2.finish_time then
    AllenRel.starts
  else if sti1.start_time < sti2.start_time ∧ sti1.finish_time = sti2.finish_time then
    AllenRel.finishby
  else AllenRel.overlaps

/-- The relation decision procedure exactly as the specification words it:
`<` if `f1<s2`; else `m` if `f1==s2`; else `=` if `s1==s2 ∧ f1==f2`; else
`c` if `s1<s2 ∧ f1>f2`; else `S` if `s1==s2 ∧ f1<f2`; else `f` if
`s1<s2 ∧ f1==f2`; else `o`. -/
def relation_per_spec (sti1 sti2 : STI) : AllenRel :=
  if sti1.finish_time < sti2.start_time then AllenRel.before
  else if sti1.finish_time = sti2.start_time then AllenRel.meets
  else if sti1.start_time = sti2.start_time ∧ sti1.finish_time = sti2.finish_time then
    AllenRel.equal
  else if sti1.start_time < sti2.start_time ∧ sti1.finish_time > sti2.finish_time then
    AllenRel.contains
  else if sti1.start_time = sti2.start_time ∧ sti1.finish_time < sti2.finish_time then
    AllenRel.starts
  else if sti1.start_time < sti2.start_time ∧ sti1.finish_time = sti2.finish_time then
    AllenRel.finishby
  else AllenRel.overlaps

/-- Python positional-call binding discipline for a signature without
varargs: the call binds iff it passes no more arguments than there are
parameters and at least the number of parameters lacking defaults;
otherwise the call raises a `TypeError`. -/
def python_call_binds (num_params num_defaults num_args : Nat) : Bool :=
  num_args ≤ num_params && num_params - num_defaults ≤ num_args

/-- Parameter count of `main_algorithm.discover_tirps`
(tirpclo/main_algorithm.py lines 12-19): six parameters, none with a
default (`is_closed_tirp_mining` included). -/
def discover_tirps_num_params : Nat := 6

/-- Number of defaulted parameters of `main_algorithm.discover_tirps`. -/
def discover_tirps_num_defaults : Nat := 0

/-- Argument count of the call `main_algorithm.discover_tirps(index,
initial_seq_db, min_support, maximal_gap, out_file)` in tirpclo/run.py
line 39. -/
def run_discover_call_num_args : Nat := 5

/-- Parameter count of `candidate_generation.get_tiep_projectors`
(tirpclo/candidate_generation.py lines 8-15): six parameters, none with a
default. -/
def get_tiep_projectors_num_params : Nat := 6

/-- Number of defaulted parameters of
`candidate_generation.get_tiep_projectors`. -/
def get_tiep_projectors_num_defaults : Nat := 0

/-- Argument count of the call to `candidate_generation.get_tiep_projectors`
in `main_algorithm.__extend_tirp` (tirpclo/main_algorithm.py lines 80-83):
seven arguments, `is_closed_tirp_mining` included. -/
def extend_call_num_args : Nat := 7

/-- Outcome of the `tirpclo` package entry point. -/
inductive RunOutcome where
  | typeError
  | finished (written_tirps : Nat)
deriving DecidableEq, Repr

/-- Control flow of `run_tirpclo` (tirpclo/run.py lines 11-47) around its
call into the mining core: the output file is set up, then
`main_algorithm.discover_tirps` is invoked; if that call does not bind,
the `TypeError` propagates before any TIRP is written, otherwise mining
would run and write some number of TIRPs. -/
def run_tirpclo_outcome (mining_would_write : Nat) : RunOutcome :=
  if python_call_binds discover_tirps_num_params discover_tirps_num_defaults
      run_discover_call_num_args then
    RunOutcome.finished mining_would_write
  else RunOutcome.typeError

lemma listMin_mem_le {l : List Int} {m : Int} (h : listMin l = some m) :
    m ∈ l ∧ ∀ x ∈ l, m ≤ x := by
  induction l generalizing m with
  | nil => simp [listMin] at h
  | cons a rest ih =>
    cases hr : listMin rest with
    | none =>
      have hm : m = a := by
        simp only [listMin] at h
        rw [hr] at h
        simpa using h.symm
      cases rest with
      | nil =>
        subst hm
        refine ⟨List.mem_singleton_self _, ?_⟩
        intro x hx
        simp at hx
        omega
      | cons b r => simp [listMin] at hr
    | some m' =>
      have hm : m = min a m' := by
        simp only [listMin] at h
        rw [hr] at h
        simpa using h.symm
      obtain ⟨hmem, hle⟩ := ih hr
      subst hm
      constructor
      · rcases le_total a m' with hc | hc
        · simp [min_eq_left hc]
        · rw [min_eq_right hc]
          exact List.mem_cons_of_mem _ hmem
      · intro x hx
        rcases List.mem_cons.mp hx with rfl | hx'
        · exact min_le_left _ _
        · exact le_trans (min_le_right _ _) (hle x hx')

lemma listMin_of_ne_nil {l : List Int} (h : l ≠ []) : ∃ m, listMin l = some m := by
  cases l with
  | nil => simp at h
  | cons a rest => exact ⟨_, rfl⟩

lemma epi_tieps (pi : PatternInstance) (t : Tiep) :
    (extend_pattern_instance pi t).tieps = pi.tieps ++ [t] := by
  unfold extend_pattern_instance
  by_cases hmem : t.sti ∈ pi.pre_matched <;>
    by_cases hty : t.ttype = TType.start <;> simp [hmem, hty]

lemma epi_mem_pre_matched (pi : PatternInstance) (t : Tiep) (hmem : t.sti ∈ pi.pre_matched) :
    (extend_pattern_instance pi t).pre_matched = pi.pre_matched.erase t.sti := by
  unfold extend_pattern_instance
  by_cases hty : t.ttype = TType.start <;> simp [hmem, hty]

lemma epi_mem_sdi (pi : PatternInstance) (t : Tiep) (hmem : t.sti ∈ pi.pre_matched) :
    (extend_pattern_instance pi t).symbol_db_indices = pi.symbol_db_indices := by
  unfold extend_pattern_instance
  by_cases hty : t.ttype = TType.start <;> simp [hmem, hty]

lemma epi_mem_fef (pi : PatternInstance) (t : Tiep) (hmem : t.sti ∈ pi.pre_matched) :
    (extend_pattern_instance pi t).first_expected_finish_time =
      if (pi.pre_matched.erase t.sti).length = 0 then none
      else listMin ((pi.pre_matched.erase t.sti).map STI.finish_time) := by
  unfold extend_pattern_instance
  by_cases hty : t.ttype = TType.start <;> simp [hmem, hty]

lemma epi_nmem_pre_matched (pi : PatternInstance) (t : Tiep) (hmem : t.sti ∉ pi.pre_matched) :
    (extend_pattern_instance pi t).pre_matched = pi.pre_matched ++ [t.sti] := by
  unfold extend_pattern_instance
  by_cases hty : t.ttype = TType.start <;> simp [hmem, hty]

lemma epi_nmem_sdi (pi : PatternInstance) (t : Tiep) (hmem : t.sti ∉ pi.pre_matched) :
    (extend_pattern_instance pi t).symbol_db_indices =
      dictSet pi.symbol_db_indices t.symbol t.entity_tiep_index := by
  unfold extend_pattern_instance
  by_cases hty : t.ttype = TType.start <;> simp [hmem, hty]

lemma epi_nmem_fef (pi : PatternInstance) (t : Tiep) (hmem : t.sti ∉ pi.pre_matched) :
    (extend_pattern_instance pi t).first_expected_finish_time =
      optMin pi.first_expected_finish_time t.sti.finish_time := by
  unfold extend_pattern_instance
  by_cases hty : t.ttype = TType.start <;> simp [hmem, hty]

lemma epi_minimal_start (pi : PatternInstance) (t : Tiep) (hty : t.ttype = TType.start) :
    (extend_pattern_instance pi t).minimal_finish_time =
      optMin pi.minimal_finish_time t.sti.finish_time := by
  unfold extend_pattern_instance
  by_cases hmem : t.sti ∈ pi.pre_matched <;> simp [hmem, hty]

lemma epi_minimal_nstart (pi : PatternInstance) (t : Tiep) (hty : t.ttype ≠ TType.start) :
    (extend_pattern_instance pi t).minimal_finish_time = pi.minimal_finish_time := by
  unfold extend_pattern_instance
  by_cases hmem : t.sti ∈ pi.pre_matched <;> simp [hmem, hty]

/-- C7: `extend_pattern_instance(new_tiep)` appends `new_tiep` to `tieps`;
if `new_tiep.sti` is in `pre_matched`, it is removed there,
`symbol_db_indices` is untouched and `first_expected_finish_time` becomes
the minimum finish time of the remaining pre-matched STIs (`+inf` when
none remain); otherwise the symbol's index is recorded, the STI is
appended to `pre_matched` and `first_expected_finish_time` becomes the
minimum of its old value and the STI's finish time; for a START tiep
`minimal_finish_time` is lowered by the STI's finish time, otherwise it
is unchanged; no other field changes. -/
theorem extend_pattern_instance_correct (pi : PatternInstance) (t : Tiep) :
    (extend_pattern_instance pi t).tieps = pi.tieps ++ [t]
    ∧ (t.sti ∈ pi.pre_matched →
        (extend_pattern_instance pi t).pre_matched = pi.pre_matched.erase t.sti
        ∧ (extend_pattern_instance pi t).symbol_db_indices = pi.symbol_db_indices
        ∧ (pi.pre_matched.erase t.sti = [] →
            (extend_pattern_instance pi t).first_expected_finish_time = none)
        ∧ (pi.pre_matched.erase t.sti ≠ [] →
            ∃ m, (extend_pattern_instance pi t).first_expected_finish_time = some m
              ∧ m ∈ (pi.pre_matched.erase t.sti).map STI.finish_time
              ∧ ∀ x ∈ (pi.pre_matched.erase t.sti).map STI.finish_time, m ≤ x))
    ∧ (t.sti ∉ pi.pre_matched →
        (extend_pattern_instance pi t).symbol_db_indices =
          dictSet pi.symbol_db_indices t.symbol t.entity_tiep_index
        ∧ (extend_pattern_instance pi t).pre_matched = pi.pre_matched ++ [t.sti]
        ∧ (extend_pattern_instance pi t).first_expected_finish_time =
            optMin pi.first_expected_finish_time t.sti.finish_time)
    ∧ (t.ttype = TType.start →
        (extend_pattern_instance pi t).minimal_finish_time =
          optMin pi.minimal_finish_time t.sti.finish_time)
    ∧ (t.ttype ≠ TType.start →
        (extend_pattern_instance pi t).minimal_finish_time = pi.minimal_finish_time) := by
  refine ⟨epi_tieps pi t, ?_, ?_, epi_minimal_start pi t, epi_minimal_nstart pi t⟩
  · intro hmem
    refine ⟨epi_mem_pre_matched pi t hmem, epi_mem_sdi pi t hmem, ?_, ?_⟩
    · intro hnil
      rw [epi_mem_fef pi t hmem, hnil]
      simp
    · intro hnn
      have hlen : ¬ ((pi.pre_matched.erase t.sti).length = 0) := by
        simpa [List.length_eq_zero] using hnn
      obtain ⟨m, hm⟩ := listMin_of_ne_nil
        (l := (pi.pre_matched.erase t.sti).map STI.finish_time) (by simpa using hnn)
      refine ⟨m, ?_, (listMin_mem_le hm).1, (listMin_mem_le hm).2⟩
      rw [epi_mem_fef pi t hmem, if_neg hlen, hm]
  · intro hmem
    exact ⟨epi_nmem_sdi pi t hmem, epi_nmem_pre_matched pi t hmem, epi_nmem_fef pi t hmem⟩

/-- Closed instantiation of `extend_pattern_instance_correct`: a FINISH
tiep whose STI is pre-matched alongside another STI. -/
theorem extend_pattern_instance_correct_witness :
    ((⟨3, 3, ⟨0, 3, 1⟩, TType.finish, 0, none⟩ : Tiep).sti ∈
        ([⟨0, 3, 1⟩, ⟨1, 5, 2⟩] : List STI))
    ∧ (extend_pattern_instance
        ⟨[], [], some 3, [⟨0, 3, 1⟩, ⟨1, 5, 2⟩], some 3⟩
        ⟨3, 3, ⟨0, 3, 1⟩, TType.finish, 0, none⟩).pre_matched = [⟨1, 5, 2⟩] := by
  have h := extend_pattern_instance_correct
    ⟨[], [], some 3, [⟨0, 3, 1⟩, ⟨1, 5, 2⟩], some 3⟩
    ⟨3, 3, ⟨0, 3, 1⟩, TType.finish, 0, none⟩
  refine ⟨by decide, ?_⟩
  rw [(h.2.1 (by decide)).1]
  decide

/-- C4: the relation written between two STIs is decided by the checks of
`__get_relation` evaluated in exactly the order the specification lists:
before if `f1<s2`, else meet if `f1==s2`, else equal if `s1==s2 ∧ f1==f2`,
else contains if `s1<s2 ∧ f1>f2`, else starts if `s1==s2 ∧ f1<f2`, else
finish-by if `s1<s2 ∧ f1==f2`, else overlap. -/
theorem get_relation_correct :
    ∀ sti1 sti2, get_relation sti1 sti2 = relation_per_spec sti1 sti2 :=
  fun _ _ => rfl

/-- C3: for every run configuration, the `tirpclo` package entry point
raises a `TypeError` before any TIRP is written: the call in run.py
passes five positional arguments to the six-parameter `discover_tirps`
(none of which has a default), and even a correct call would fail because
`__extend_tirp` passes seven arguments to the six-parameter
`get_tiep_projectors`. -/
theorem run_tirpclo_type_error :
    (∀ mining_would_write, run_tirpclo_outcome mining_would_write = RunOutcome.typeError)
    ∧ python_call_binds get_tiep_projectors_num_params get_tiep_projectors_num_defaults
        extend_call_num_args = false :=
  ⟨fun _ => rfl, rfl⟩

lemma project_within_tieps_first_finish_invalid (pred : Tiep → Bool)
    (pi : PatternInstance) (aco : Bool) :
    ∀ (pre : List Tiep) (e : Tiep) (post : List Tiep),
    (∀ x ∈ pre, pred x = false) → pred e = true → e.ttype = TType.finish →
    e.sti ∉ pi.pre_matched →
    project_within_tieps pred pi aco (pre ++ e :: post) = none := by
  intro pre
  induction pre with
  | nil =>
    intro e post _ hpe hty hnm
    simp [project_within_tieps, hpe, hty, is_tiep_valid_for_extension, hnm]
  | cons x pre' ih =>
    intro e post hall hpe hty hnm
    have hx : pred x = false := hall x (by simp)
    simp only [List.cons_append, project_within_tieps, hx, Bool.false_eq_true, if_false]
    exact ih e post (fun y hy => hall y (by simp [hy])) hpe hty hnm

/-- C5: in the core sequence-projection subroutine the anchor coincidence
is the sequence's partial coincidence when that exists and carries the
index of the occurrence's coincidence, and the occurrence's own
coincidence otherwise; within the anchor the matched position is found by
object identity with the occurrence for non-CO candidates and by identity
of the element's `orig_tiep` with the occurrence for CO candidates; and
when the matched tiep is a FINISH whose STI is not pre-matched, the
projection fails. -/
theorem projection_subroutine_correct (occ : Occurrence) (tiep : CandRep)
    (cs : CoincidenceSequence) (pi : PatternInstance) :
    (∀ c, cs.partCo = true → cs.first_co.head? = some c → c.index = occ.co.index →
      get_projected_coincidence_seq occ tiep cs pi =
        project_from_anchor tiep occ pi c cs.first_co.tail)
    ∧ ((cs.partCo = false ∨ ∀ c, cs.first_co.head? = some c → c.index ≠ occ.co.index) →
      get_projected_coincidence_seq occ tiep cs pi =
        project_from_anchor tiep occ pi occ.co occ.next)
    ∧ (tiep.pfx = Pfx.co →
        ∀ e, match_pred tiep occ e = true ↔ e.orig_tiep = some occ.t.tid)
    ∧ (tiep.pfx ≠ Pfx.co → ∀ e, match_pred tiep occ e = true ↔ e = occ.t)
    ∧ (∀ (anchor : Co) (anchorTail : List Co) (pre : List Tiep) (e : Tiep) (post : List Tiep),
        anchor.tieps = pre ++ e :: post →
        (∀ x ∈ pre, match_pred tiep occ x = false) →
        match_pred tiep occ e = true →
        e.ttype = TType.finish →
        e.sti ∉ pi.pre_matched →
        project_from_anchor tiep occ pi anchor anchorTail = none) := by
  refine ⟨?_, ?_, ?_, ?_, ?_⟩
  · intro c hp hh hidx
    simp [get_projected_coincidence_seq, anchor_of, hp, hh, hidx]
  · intro h
    rcases h with hp | hne
    · simp [get_projected_coincidence_seq, anchor_of, hp]
    · cases hh : cs.first_co.head? with
      | none => by_cases hp : cs.partCo <;> simp [get_projected_coincidence_seq, anchor_of, hp, hh]
      | some c =>
        by_cases hp : cs.partCo <;>
          simp [get_projected_coincidence_seq, anchor_of, hp, hh, hne c hh]
  · intro hco e
    simp [match_pred, hco]
  · intro hco e
    simp [match_pred, hco]
  · intro anchor anchorTail pre e post hsplit hall hpe hty hnm
    unfold project_from_anchor
    rw [hsplit, project_within_tieps_first_finish_invalid (match_pred tiep occ) pi
      anchor.is_co pre e post hall hpe hty hnm]

/-- Closed instantiation of `projection_subroutine_correct`: a plain
FINISH candidate matching the first tiep of the anchor fails against an
empty `pre_matched` list. -/
theorem projection_subroutine_correct_witness :
    project_from_anchor ⟨Pfx.plain, ⟨1, TType.finish⟩⟩
      ⟨⟨5, 7, ⟨0, 7, 1⟩, TType.finish, 0, none⟩, ⟨1, false, false,
        [⟨5, 7, ⟨0, 7, 1⟩, TType.finish, 0, none⟩]⟩, []⟩
      PatternInstance.init
      ⟨1, false, false, [⟨5, 7, ⟨0, 7, 1⟩, TType.finish, 0, none⟩]⟩ [] = none := by
  have h := projection_subroutine_correct
    ⟨⟨5, 7, ⟨0, 7, 1⟩, TType.finish, 0, none⟩, ⟨1, false, false,
      [⟨5, 7, ⟨0, 7, 1⟩, TType.finish, 0, none⟩]⟩, []⟩
    ⟨Pfx.plain, ⟨1, TType.finish⟩⟩
    ⟨"E", [], false⟩
    PatternInstance.init
  exact h.2.2.2.2 ⟨1, false, false, [⟨5, 7, ⟨0, 7, 1⟩, TType.finish, 0, none⟩]⟩ []
    [] ⟨5, 7, ⟨0, 7, 1⟩, TType.finish, 0, none⟩ []
    (by decide) (by intro x hx; simp at hx) (by decide) (by decide) (by decide)

/-- C6: in `project_projected_seq_db`, the per-record occurrence loop
admits at most one projected entry and stops right after the first
attempted occurrence when the candidate is CO-marked, MEET-marked or a
FINISH tiep (so in particular it stops after the first successful
projection), while for a plain START candidate it continues with the
remaining occurrences after an attempt. -/
theorem projection_loop_break_semantics (tiep : CandRep) (is_start is_co_meet : Bool)
    (maximal_gap : Int) (cs : CoincidenceSequence) (pi : PatternInstance)
    (h1 : is_start = decide (tiep.prim.ttype = TType.start))
    (h2 : is_co_meet = decide (tiep.pfx = Pfx.co ∨ tiep.pfx = Pfx.meet)) :
    ((tiep.pfx ≠ Pfx.plain ∨ tiep.prim.ttype = TType.finish) →
      (∀ occs, (projectRecordLoop tiep is_start is_co_meet maximal_gap cs pi occs).length ≤ 1)
      ∧ (∀ occ rest, occ_time_exceeds pi occ.t = false →
          (tiep.prim.ttype = TType.start →
            max_gap_holds pi.minimal_finish_time occ.t maximal_gap = true) →
          projectRecordLoop tiep is_start is_co_meet maximal_gap cs pi (occ :: rest) =
            (match project_seq_by_tiep_instance occ tiep cs pi with
             | some cs' => [(cs', extend_pattern_instance pi occ.t)]
             | none => [])))
    ∧ ((tiep.pfx = Pfx.plain ∧ tiep.prim.ttype = TType.start) →
        ∀ occ rest, occ_time_exceeds pi occ.t = false →
          max_gap_holds pi.minimal_finish_time occ.t maximal_gap = true →
          projectRecordLoop tiep is_start is_co_meet maximal_gap cs pi (occ :: rest) =
            (match project_seq_by_tiep_instance occ tiep cs pi with
             | some cs' => [(cs', extend_pattern_instance pi occ.t)]
             | none => []) ++
            projectRecordLoop tiep is_start is_co_meet maximal_gap cs pi rest) := by
  have hstop : (tiep.pfx ≠ Pfx.plain ∨ tiep.prim.ttype = TType.finish) →
      (is_co_meet ∨ ¬ is_start) = true := by
    intro h
    rcases h with hpfx | hfin
    · cases hx : tiep.pfx with
      | plain => exact absurd hx hpfx
      | co => subst h1 h2; simp [hx]
      | meet => subst h1 h2; simp [hx]
    · subst h1 h2
      simp [hfin]
  constructor
  · intro hshape
    constructor
    · intro occs
      induction occs with
      | nil => simp [projectRecordLoop]
      | cons occ rest ih =>
        rw [projectRecordLoop]
        by_cases hskip : occ_time_exceeds pi occ.t
        · simpa [hskip] using ih
        · by_cases hgap : is_start ∧ ¬ max_gap_holds pi.minimal_finish_time occ.t maximal_gap
          · simp [hskip, hgap]
          · simp only [hskip, Bool.false_eq_true, if_false, hgap, if_true, hstop hshape]
            cases project_seq_by_tiep_instance occ tiep cs pi <;> simp
    · intro occ rest hskip hgap
      rw [projectRecordLoop]
      have hgap' : ¬ (is_start = true ∧
          ¬ max_gap_holds pi.minimal_finish_time occ.t maximal_gap = true) := by
        subst h1
        rintro ⟨hs, hng⟩
        exact hng (hgap (by simpa using hs))
      simp only [hskip, Bool.false_eq_true, if_false]
      rw [if_neg (by simpa using hgap'), if_pos (by simpa using hstop hshape)]
  · rintro ⟨hpfx, hstart⟩ occ rest hskip hgap
    have hsm : is_co_meet = false := by subst h2; simp [hpfx]
    have hss : is_start = true := by subst h1; simp [hstart]
    rw [projectRecordLoop]
    simp only [hskip, Bool.false_eq_true, if_false, hsm, hss, hgap]
    simp

/-- Closed instantiation of `projection_loop_break_semantics`: a plain
FINISH candidate stops after its first attempted occurrence even though a
second occurrence follows. -/
theorem projection_loop_break_semantics_witness :
    projectRecordLoop ⟨Pfx.plain, ⟨1, TType.finish⟩⟩ false false 10
      ⟨"E", [], false⟩ PatternInstance.init
      [⟨⟨5, 7, ⟨0, 7, 1⟩, TType.finish, 0, none⟩, ⟨1, false, false,
          [⟨5, 7, ⟨0, 7, 1⟩, TType.finish, 0, none⟩]⟩, []⟩,
       ⟨⟨6, 9, ⟨0, 9, 1⟩, TType.finish, 1, none⟩, ⟨2, false, false,
          [⟨6, 9, ⟨0, 9, 1⟩, TType.finish, 1, none⟩]⟩, []⟩] = [] := by
  have h := projection_loop_break_semantics ⟨Pfx.plain, ⟨1, TType.finish⟩⟩ false false 10
    ⟨"E", [], false⟩ PatternInstance.init (by decide) (by decide)
  rw [(h.1 (by decide)).2
    ⟨⟨5, 7, ⟨0, 7, 1⟩, TType.finish, 0, none⟩, ⟨1, false, false,
      [⟨5, 7, ⟨0, 7, 1⟩, TType.finish, 0, none⟩]⟩, []⟩
    [⟨⟨6, 9, ⟨0, 9, 1⟩, TType.finish, 1, none⟩, ⟨2, false, false,
      [⟨6, 9, ⟨0, 9, 1⟩, TType.finish, 1, none⟩]⟩, []⟩]
    (by decide) (by decide)]
  decide

lemma nodup_subset_le_dedup_length {l m : List String} (hn : l.Nodup)
    (hs : ∀ x ∈ l, x ∈ m) : l.length ≤ m.dedup.length := by
  have h1 : l.length = l.toFinset.card := (List.toFinset_card_of_nodup hn).symm
  have h2 : l.toFinset ⊆ m.toFinset := by
    intro x hx
    rw [List.mem_toFinset] at hx ⊢
    exact hs x hx
  rw [h1, ← List.card_toFinset m]
  exact Finset.card_le_card h2

lemma projectEntriesLoop_sup_invariant (db : List (CoincidenceSequence × PatternInstance))
    (tiep : CandRep) (is_start is_co_meet : Bool) (maximal_gap : Int)
    (occsOf : String → List Occurrence) :
    ∀ (l : List (Nat × Nat)) (es : List (CoincidenceSequence × PatternInstance))
      (idxs : List Nat) (sup : List String),
    sup.Nodup → (∀ e ∈ sup, e ∈ db.map (fun r => r.1.entity)) →
    (projectEntriesLoop db tiep is_start is_co_meet maximal_gap occsOf l
        (es, idxs, sup)).2.2.Nodup
    ∧ ∀ e ∈ (projectEntriesLoop db tiep is_start is_co_meet maximal_gap occsOf l
        (es, idxs, sup)).2.2, e ∈ db.map (fun r => r.1.entity) := by
  intro l
  induction l with
  | nil =>
    intro es idxs sup hn hmem
    exact ⟨hn, hmem⟩
  | cons p rest ih =>
    intro es idxs sup hn hmem
    rw [projectEntriesLoop]
    cases hdb : db[p.1]? with
    | none => exact ih es idxs sup hn hmem
    | some r =>
      obtain ⟨cs, pi⟩ := r
      dsimp only
      by_cases hcond : (projectRecordLoop tiep is_start is_co_meet maximal_gap cs pi
          ((occsOf cs.entity).drop p.2)).isEmpty = true ∨ cs.entity ∈ sup
      · rw [if_pos hcond]
        exact ih _ _ sup hn hmem
      · rw [if_neg hcond]
        have hne : cs.entity ∉ sup := fun hc => hcond (Or.inr hc)
        have hn' : (sup ++ [cs.entity]).Nodup := by
          simp [List.nodup_append, hn, hne]
        have hmem' : ∀ e ∈ sup ++ [cs.entity], e ∈ db.map (fun x => x.1.entity) := by
          intro e he
          rcases List.mem_append.mp he with he' | he'
          · exact hmem e he'
          · have he2 : e = cs.entity := by simpa using he'
            subst he2
            exact List.mem_map_of_mem (fun x => x.1.entity) (List.getElem?_mem hdb)
        exact ih _ _ (sup ++ [cs.entity]) hn' hmem'

/-- C9: extending a TIRP never increases its vertical support: when the
database's `support` field counts its distinct record entities and the
tiep projector refers to records of the database, the database returned
by `project_projected_seq_db` has `support` at most `db.support`. -/
theorem support_monotone (db : SequenceDB) (tiep : CandRep) (tiep_projector : TiepProjector)
    (index : TiepIndex) (maximal_gap : Int)
    (hsup : db.support = (db.db.map (fun r => r.1.entity)).dedup.length)
    (hrange : ∀ p ∈ tiep_projector.first_indices, p.1 < db.db.length) :
    (project_projected_seq_db db tiep tiep_projector index maximal_gap).support ≤ db.support := by
  have hr := hrange
  clear hr
  have h := projectEntriesLoop_sup_invariant db.db tiep
    (decide (tiep.prim.ttype = TType.start))
    (decide (tiep.pfx = Pfx.co ∨ tiep.pfx = Pfx.meet)) maximal_gap
    (fun e => (dget ((dget index tiep.prim).getD MasterTiep.empty).tiep_occurrences e).getD [])
    tiep_projector.first_indices [] [] [] List.nodup_nil (by intro e he; simp at he)
  rw [hsup]
  exact nodup_subset_le_dedup_length h.1 h.2

/-- Closed instantiation of `support_monotone` at a one-record database
and an empty index. -/
theorem support_monotone_witness :
    (project_projected_seq_db
      ⟨[(⟨"E", [], false⟩, PatternInstance.init)], none, 1⟩
      ⟨Pfx.plain, ⟨1, TType.start⟩⟩ ⟨["E"], [(0, 0)]⟩ ([] : TiepIndex) 10).support ≤ 1 :=
  support_monotone ⟨[(⟨"E", [], false⟩, PatternInstance.init)], none, 1⟩
    ⟨Pfx.plain, ⟨1, TType.start⟩⟩ ⟨["E"], [(0, 0)]⟩ ([] : TiepIndex) 10
    (by decide) (by decide)

/-- Number of coincidences deleted by the filter strictly before position
`i` of the chain (those whose filtered tiep list is empty). -/
def deleted_count_before (freq : PrimRep → Bool) (chain : List Co) (i : Nat) : Nat :=
  (chain.take i).countP (fun c => (filter_coincidence_tieps freq c.tieps).isEmpty)

/-- Surviving coincidences of a chain as the specification words it,
generalised by the number of coincidences already deleted before the
chain (`removed`) and whether the coincidence immediately preceding the
chain was deleted (`removedRecent`): position `i` survives iff its
filtered tiep list is non-empty; a survivor keeps the filtered tieps, has
its index decreased by the number of coincidences deleted before it, and
loses its meet flag exactly when its immediate predecessor was deleted. -/
def spec_filter_from (freq : PrimRep → Bool) (removed : Nat) (removedRecent : Bool)
    (chain : List Co) : List Co :=
  (List.range chain.length).filterMap (fun i =>
    match chain[i]? with
    | none => none
    | some c =>
      if (filter_coincidence_tieps freq c.tieps).isEmpty then none
      else some { c with
        tieps := filter_coincidence_tieps freq c.tieps,
        index := (c.index - (removed + deleted_count_before freq chain i)),
        is_meet := c.is_meet && !(if i = 0 then removedRecent
          else match chain[i - 1]? with
            | none => false
            | some cp => (filter_coincidence_tieps freq cp.tieps).isEmpty) })

/-- Surviving coincidences of a whole record chain as the specification
words it: no deletions precede the chain head and its (non-existent)
predecessor was not deleted. -/
def spec_filter (freq : PrimRep → Bool) (chain : List Co) : List Co :=
  spec_filter_from freq 0 false chain

lemma deleted_count_before_zero (freq : PrimRep → Bool) (chain : List Co) :
    deleted_count_before freq chain 0 = 0 := by
  simp [deleted_count_before]

lemma deleted_count_before_cons_succ (freq : PrimRep → Bool) (c : Co) (rest : List Co)
    (i : Nat) :
    deleted_count_before freq (c :: rest) (i + 1) =
      (if (filter_coincidence_tieps freq c.tieps).isEmpty then 1 else 0) +
        deleted_count_before freq rest i := by
  unfold deleted_count_before
  rw [List.take_succ_cons, List.countP_cons]
  by_cases hts : (filter_coincidence_tieps freq c.tieps).isEmpty = true
  · simp [hts]
    omega
  · simp [hts]

lemma spec_filter_from_cons (freq : PrimRep → Bool) (removed : Nat) (rr : Bool) (c : Co)
    (rest : List Co) :
    spec_filter_from freq removed rr (c :: rest) =
    if (filter_coincidence_tieps freq c.tieps).isEmpty then
      spec_filter_from freq (removed + 1) true rest
    else
      { c with
        tieps := filter_coincidence_tieps freq c.tieps,
        index := (c.index - removed),
        is_meet := c.is_meet && !rr } :: spec_filter_from freq removed false rest := by
  by_cases hts : (filter_coincidence_tieps freq c.tieps).isEmpty = true
  · rw [if_pos hts]
    unfold spec_filter_from
    rw [List.length_cons, List.range_succ_eq_map, List.filterMap_cons, List.filterMap_map]
    have h0 : (match (c :: rest)[0]? with
        | none => none
        | some c0 =>
          if (filter_coincidence_tieps freq c0.tieps).isEmpty then none
          else some { c0 with
            tieps := filter_coincidence_tieps freq c0.tieps,
            index := (c0.index - (removed + deleted_count_before freq (c :: rest) 0)),
            is_meet := c0.is_meet && !(if 0 = 0 then rr
              else match (c :: rest)[0 - 1]? with
                | none => false
                | some cp => (filter_coincidence_tieps freq cp.tieps).isEmpty) }) =
        (none : Option Co) := by
      simp [hts]
    rw [h0]
    dsimp only
    apply List.filterMap_congr
    intro i hi
    simp only [Function.comp, List.getElem?_cons_succ, Nat.succ_eq_add_one]
    cases hri : rest[i]? with
    | none => rfl
    | some c' =>
      by_cases hts' : (filter_coincidence_tieps freq c'.tieps).isEmpty = true
      · simp [hts']
      · have hpred : (if i + 1 = 0 then rr
            else match (c :: rest)[i + 1 - 1]? with
              | none => false
              | some cp => (filter_coincidence_tieps freq cp.tieps).isEmpty) =
            (if i = 0 then true
            else match rest[i - 1]? with
              | none => false
              | some cp => (filter_coincidence_tieps freq cp.tieps).isEmpty) := by
          cases i with
          | zero => simp [hts]
          | succ j => simp
        simp only [hts', Bool.false_eq_true, if_false, hpred,
          deleted_count_before_cons_succ, if_pos hts]
        push_cast
        ring_nf
  · rw [if_neg hts]
    unfold spec_filter_from
    rw [List.length_cons, List.range_succ_eq_map, List.filterMap_cons, List.filterMap_map]
    have h0 : (match (c :: rest)[0]? with
        | none => none
        | some c0 =>
          if (filter_coincidence_tieps freq c0.tieps).isEmpty then none
          else some { c0 with
            tieps := filter_coincidence_tieps freq c0.tieps,
            index := (c0.index - (removed + deleted_count_before freq (c :: rest) 0)),
            is_meet := c0.is_meet && !(if 0 = 0 then rr
              else match (c :: rest)[0 - 1]? with
                | none => false
                | some cp => (filter_coincidence_tieps freq cp.tieps).isEmpty) }) =
        some { c with
          tieps := filter_coincidence_tieps freq c.tieps,
          index := (c.index - removed),
          is_meet := c.is_meet && !rr } := by
      simp [hts, deleted_count_before_zero]
    rw [h0]
    dsimp only
    congr 1
    apply List.filterMap_congr
    intro i hi
    simp only [Function.comp, List.getElem?_cons_succ, Nat.succ_eq_add_one]
    cases hri : rest[i]? with
    | none => rfl
    | some c' =>
      by_cases hts' : (filter_coincidence_tieps freq c'.tieps).isEmpty = true
      · simp [hts']
      · have hpred : (if i + 1 = 0 then rr
            else match (c :: rest)[i + 1 - 1]? with
              | none => false
              | some cp => (filter_coincidence_tieps freq cp.tieps).isEmpty) =
            (if i = 0 then false
            else match rest[i - 1]? with
              | none => false
              | some cp => (filter_coincidence_tieps freq cp.tieps).isEmpty) := by
          cases i with
          | zero => simp [hts]
          | succ j => simp
        simp only [hts', Bool.false_eq_true, if_false, hpred,
          deleted_count_before_cons_succ, if_neg hts]
        push_cast
        ring_nf

lemma filter_chain_aux_eq (freq : PrimRep → Bool) :
    ∀ (chain : List Co) (removed : Nat) (rr : Bool),
    filter_chain_aux freq removed rr chain = spec_filter_from freq removed rr chain := by
  intro chain
  induction chain with
  | nil => intro removed rr; simp [filter_chain_aux, spec_filter_from]
  | cons c rest ih =>
    intro removed rr
    rw [filter_chain_aux, spec_filter_from_cons]
    by_cases hts : (filter_coincidence_tieps freq c.tieps).isEmpty = true
    · rw [if_pos hts, if_pos hts, ih]
    · rw [if_neg hts, if_neg hts, ih]

lemma filter_chain_aux_ne_nil (freq : PrimRep → Bool) :
    ∀ (chain : List Co) (removed : Nat) (rr : Bool),
    (∃ c ∈ chain, ¬ (filter_coincidence_tieps freq c.tieps).isEmpty = true) →
    filter_chain_aux freq removed rr chain ≠ [] := by
  intro chain
  induction chain with
  | nil =>
    intro removed rr h
    simp at h
  | cons c rest ih =>
    intro removed rr h
    rw [filter_chain_aux]
    by_cases hts : (filter_coincidence_tieps freq c.tieps).isEmpty = true
    · rw [if_pos hts]
      apply ih
      obtain ⟨c', hc', hne⟩ := h
      rcases List.mem_cons.mp hc' with rfl | hmem
      · exact absurd hts hne
      · exact ⟨c', hmem, hne⟩
    · rw [if_neg hts]
      exact List.cons_ne_nil _ _

/-- C8 counterexample: on a record all of whose tieps are infrequent, the
filter empties the single coincidence's tiep list in place but never
splices it out nor moves `first_co` (no survivor exists), so an emptied
coincidence remains in the chain reachable from `first_co`, contradicting
the claim that every emptied coincidence is removed from the chain. -/
theorem filter_infrequent_counterexample :
    filter_infrequent_record (fun _ => false)
      [⟨0, false, false, [⟨0, 0, ⟨0, 1, 1⟩, TType.start, 0, none⟩]⟩] =
      [⟨0, false, false, []⟩]
    ∧ ¬ (∀ c ∈ filter_infrequent_record (fun _ => false)
        [⟨0, false, false, [⟨0, 0, ⟨0, 1, 1⟩, TType.start, 0, none⟩]⟩], c.tieps ≠ []) := by
  constructor
  · decide
  · intro h
    exact h ⟨0, false, false, []⟩ (by decide) (by decide)

/-- C8 (amended): on a record chain retaining at least one frequent tiep,
the filtered chain consists exactly of the surviving coincidences of the
specification's walk (no infrequent tiep remains, emptied coincidences
are removed, `first_co` starts at the first survivor, indices drop by the
number of coincidences deleted before them, and the meet flag is cleared
on survivors whose immediate predecessor was deleted); in particular
every remaining coincidence carries only frequent tieps and none is
empty. -/
theorem filter_infrequent_correct (freq : PrimRep → Bool) (chain : List Co)
    (hsurv : ∃ c ∈ chain, ¬ (filter_coincidence_tieps freq c.tieps).isEmpty = true) :
    filter_infrequent_record freq chain = spec_filter freq chain
    ∧ (∀ c ∈ filter_infrequent_record freq chain, ∀ t ∈ c.tieps,
        freq t.primitive_rep = true)
    ∧ (∀ c ∈ filter_infrequent_record freq chain, c.tieps ≠ []) := by
  have hne := filter_chain_aux_ne_nil freq chain 0 false hsurv
  have heq : filter_infrequent_record freq chain = filter_chain_aux freq 0 false chain := by
    unfold filter_infrequent_record
    rw [if_neg (by simpa [List.isEmpty_iff] using hne)]
  have hmem : ∀ c ∈ filter_infrequent_record freq chain,
      ∃ c0 : Co, (filter_coincidence_tieps freq c0.tieps).isEmpty = false
        ∧ c.tieps = filter_coincidence_tieps freq c0.tieps := by
    intro c hc
    rw [heq, filter_chain_aux_eq] at hc
    obtain ⟨i, hi, hF⟩ := List.mem_filterMap.mp hc
    cases hci : chain[i]? with
    | none =>
      rw [hci] at hF
      simp at hF
    | some c0 =>
      rw [hci] at hF
      dsimp only at hF
      by_cases hts : (filter_coincidence_tieps freq c0.tieps).isEmpty = true
      · rw [if_pos hts] at hF
        simp at hF
      · rw [if_neg hts] at hF
        refine ⟨c0, by simpa using hts, ?_⟩
        rw [← Option.some.inj hF]
  refine ⟨?_, ?_, ?_⟩
  · rw [heq, filter_chain_aux_eq]
    rfl
  · intro c hc t ht
    obtain ⟨c0, hne0, hts⟩ := hmem c hc
    rw [hts] at ht
    simpa using (List.mem_filter.mp ht).2
  · intro c hc
    obtain ⟨c0, hne0, hts⟩ := hmem c hc
    rw [hts]
    intro hnil
    simp [hnil] at hne0

/-- Closed instantiation of `filter_infrequent_correct` at a one-survivor
chain. -/
theorem filter_infrequent_correct_witness :
    (∃ c ∈ [(⟨0, false, false, [⟨0, 0, ⟨0, 1, 1⟩, TType.start, 0, none⟩]⟩ : Co)],
      ¬ (filter_coincidence_tieps (fun _ => true) c.tieps).isEmpty = true)
    ∧ filter_infrequent_record (fun _ => true)
        [⟨0, false, false, [⟨0, 0, ⟨0, 1, 1⟩, TType.start, 0, none⟩]⟩] =
      spec_filter (fun _ => true)
        [⟨0, false, false, [⟨0, 0, ⟨0, 1, 1⟩, TType.start, 0, none⟩]⟩] :=
  ⟨⟨⟨0, false, false, [⟨0, 0, ⟨0, 1, 1⟩, TType.start, 0, none⟩]⟩, by decide, by decide⟩,
   (filter_infrequent_correct (fun _ => true)
     [⟨0, false, false, [⟨0, 0, ⟨0, 1, 1⟩, TType.start, 0, none⟩]⟩]
     ⟨⟨0, false, false, [⟨0, 0, ⟨0, 1, 1⟩, TType.start, 0, none⟩]⟩, by decide, by decide⟩).1⟩

/-- Number of START tieps of a pattern instance's tiep list. -/
def startCount (l : List Tiep) : Nat := l.countP (fun t => t.ttype == TType.start)

/-- Number of FINISH tieps of a pattern instance's tiep list. -/
def finishCount (l : List Tiep) : Nat := l.countP (fun t => t.ttype == TType.finish)

/-- Every FINISH tiep of the list is preceded by a strictly earlier START
tiep of the same STI. -/
def properly_paired (l : List Tiep) : Prop :=
  ∀ j, (hj : j < l.length) → l[j].ttype = TType.finish →
    ∃ k, ∃ hk : k < l.length, k < j ∧ l[k].ttype = TType.start ∧ l[k].sti = l[j].sti

/-- Extension discipline for pattern instances, starting from a fresh
`PatternInstance()`.  The FINISH clause is what a successful projection
guarantees (`__is_tiep_valid_for_extension`: the STI is pre-matched).
The START clause is the discipline section 4.4 of the specification
assumes when it identifies the non-membership branch of
`extend_pattern_instance` with START tieps; the pipeline itself
guarantees it only when no matched START finds a value-equal STI already
pre-matched — STI equality is by value (a plain dataclass), so an entity
carrying two value-identical STIs violates it and the miner then emits an
unbalanced pattern (see `balanced_emission_counterexample`). -/
inductive ReachedInstance : PatternInstance → Prop where
  | init : ReachedInstance PatternInstance.init
  | ext (pi : PatternInstance) (t : Tiep) :
      ReachedInstance pi →
      (t.ttype = TType.finish → is_tiep_valid_for_extension t pi = true) →
      (t.ttype = TType.start → t.sti ∉ pi.pre_matched) →
      ReachedInstance (extend_pattern_instance pi t)

lemma getElem_append_of_eq {l l' : List Tiep} {t : Tiep} (he : l' = l ++ [t]) {k : Nat}
    (hk : k < l.length) (hk' : k < l'.length) : l'[k] = l[k] := by
  subst he
  exact List.getElem_append_left hk

lemma getElem_append_last {l l' : List Tiep} {t : Tiep} (he : l' = l ++ [t])
    (hk' : l.length < l'.length) : l'[l.length] = t := by
  subst he
  exact List.getElem_concat_length _ _ _ rfl (by simp)

lemma reached_invariant {pi : PatternInstance} (h : ReachedInstance pi) :
    startCount pi.tieps = finishCount pi.tieps + pi.pre_matched.length
    ∧ (∀ s ∈ pi.pre_matched, ∃ k, ∃ hk : k < pi.tieps.length,
        pi.tieps[k].ttype = TType.start ∧ pi.tieps[k].sti = s)
    ∧ properly_paired pi.tieps := by
  induction h with
  | init =>
    refine ⟨by simp [startCount, finishCount, PatternInstance.init], ?_, ?_⟩
    · intro s hs
      simp [PatternInstance.init] at hs
    · intro j hj
      simp [PatternInstance.init] at hj
  | ext pi t hr hfin hstart ih =>
    obtain ⟨ihc, ihb, ihp⟩ := ih
    have htieps := epi_tieps pi t
    have hlen' : (extend_pattern_instance pi t).tieps.length = pi.tieps.length + 1 := by
      rw [htieps]
      simp
    by_cases hmem : t.sti ∈ pi.pre_matched
    · have htf : t.ttype = TType.finish := by
        cases hty : t.ttype with
        | start => exact absurd hmem (hstart hty)
        | finish => rfl
      have hpm := epi_mem_pre_matched pi t hmem
      refine ⟨?_, ?_, ?_⟩
      · rw [htieps, hpm, startCount, finishCount, List.countP_append, List.countP_append,
          List.length_erase_of_mem hmem]
        have h1 : [t].countP (fun x => x.ttype == TType.start) = 0 := by simp [htf]
        have h2 : [t].countP (fun x => x.ttype == TType.finish) = 1 := by simp [htf]
        rw [h1, h2]
        have hl : 1 ≤ pi.pre_matched.length := List.length_pos.mpr
          (List.ne_nil_of_mem hmem)
        rw [startCount, finishCount] at ihc
        omega
      · intro s hs
        rw [hpm] at hs
        obtain ⟨k, hk, hks, hsti⟩ := ihb s (List.mem_of_mem_erase hs)
        have hk' : k < (extend_pattern_instance pi t).tieps.length := by omega
        refine ⟨k, hk', ?_, ?_⟩ <;> rw [getElem_append_of_eq htieps hk hk']
        · exact hks
        · exact hsti
      · intro j hj hfin'
        rcases Nat.lt_or_ge j pi.tieps.length with hjl | hjl
        · rw [getElem_append_of_eq htieps hjl hj] at hfin'
          obtain ⟨k, hk, hkj, hks, hsti⟩ := ihp j hjl hfin'
          have hk' : k < (extend_pattern_instance pi t).tieps.length := by omega
          refine ⟨k, hk', hkj, ?_, ?_⟩
          · rw [getElem_append_of_eq htieps hk hk']
            exact hks
          · rw [getElem_append_of_eq htieps hk hk', getElem_append_of_eq htieps hjl hj]
            exact hsti
        · have hjeq : j = pi.tieps.length := by omega
          subst hjeq
          rw [getElem_append_last htieps hj]
          obtain ⟨k, hk, hks, hsti⟩ := ihb t.sti hmem
          have hk' : k < (extend_pattern_instance pi t).tieps.length := by omega
          refine ⟨k, hk', by omega, ?_, ?_⟩ <;>
            rw [getElem_append_of_eq htieps hk hk']
          · exact hks
          · exact hsti
    · have hts : t.ttype = TType.start := by
        cases hty : t.ttype with
        | start => rfl
        | finish =>
          have hv := hfin hty
          rw [is_tiep_valid_for_extension] at hv
          simp at hv
          exact absurd hv hmem
      have hpm := epi_nmem_pre_matched pi t hmem
      refine ⟨?_, ?_, ?_⟩
      · rw [htieps, hpm, startCount, finishCount, List.countP_append, List.countP_append,
          List.length_append]
        have h1 : [t].countP (fun x => x.ttype == TType.start) = 1 := by simp [hts]
        have h2 : [t].countP (fun x => x.ttype == TType.finish) = 0 := by simp [hts]
        rw [h1, h2]
        rw [startCount, finishCount] at ihc
        simp
        omega
      · intro s hs
        rw [hpm] at hs
        rcases List.mem_append.mp hs with hs' | hs'
        · obtain ⟨k, hk, hks, hsti⟩ := ihb s hs'
          have hk' : k < (extend_pattern_instance pi t).tieps.length := by omega
          refine ⟨k, hk', ?_, ?_⟩ <;> rw [getElem_append_of_eq htieps hk hk']
          · exact hks
          · exact hsti
        · have hseq : s = t.sti := by simpa using hs'
          subst hseq
          have hk' : pi.tieps.length < (extend_pattern_instance pi t).tieps.length := by omega
          refine ⟨pi.tieps.length, hk', ?_, ?_⟩ <;> rw [getElem_append_last htieps hk']
          exact hts
      · intro j hj hfin'
        rcases Nat.lt_or_ge j pi.tieps.length with hjl | hjl
        · rw [getElem_append_of_eq htieps hjl hj] at hfin'
          obtain ⟨k, hk, hkj, hks, hsti⟩ := ihp j hjl hfin'
          have hk' : k < (extend_pattern_instance pi t).tieps.length := by omega
          refine ⟨k, hk', hkj, ?_, ?_⟩
          · rw [getElem_append_of_eq htieps hk hk']
            exact hks
          · rw [getElem_append_of_eq htieps hk hk', getElem_append_of_eq htieps hjl hj]
            exact hsti
        · have hjeq : j = pi.tieps.length := by omega
          subst hjeq
          rw [getElem_append_last htieps hj, hts] at hfin'
          exact absurd hfin' (by simp)

lemma mem_extendLoop {k : SequenceDB → CandRep → List SequenceDB} {min_support : Int}
    {index : TiepIndex} {maximal_gap : Int} {db : SequenceDB} :
    ∀ {l : List (CandRep × TiepProjector)} {e : SequenceDB},
    e ∈ extendLoop k min_support index maximal_gap db l →
    ∃ t tp, (t, tp) ∈ l ∧ ¬((tp.supporting_entities.length : Int) < min_support)
      ∧ min_support ≤ ((project_projected_seq_db db t tp index maximal_gap).support : Int)
      ∧ e ∈ k (project_projected_seq_db db t tp index maximal_gap) t := by
  intro l
  induction l with
  | nil =>
    intro e he
    simp [extendLoop] at he
  | cons p rest ih =>
    intro e he
    obtain ⟨t, tp⟩ := p
    rw [extendLoop] at he
    rcases List.mem_append.mp he with h1 | h2
    · by_cases hsup : ((tp.supporting_entities.length : Int) < min_support)
      · rw [if_pos hsup] at h1
        simp at h1
      · rw [if_neg hsup] at h1
        by_cases hms : min_support ≤
            ((project_projected_seq_db db t tp index maximal_gap).support : Int)
        · rw [if_pos hms] at h1
          exact ⟨t, tp, List.mem_cons_self _ _, hsup, hms, h1⟩
        · rw [if_neg hms] at h1
          simp at h1
    · obtain ⟨t', tp', hmem, a, b, c⟩ := ih h2
      exact ⟨t', tp', List.mem_cons_of_mem _ hmem, a, b, c⟩

lemma extend_tirp_all_in_pairs (gen : GenOracle) (index : TiepIndex)
    (min_support maximal_gap : Int) :
    ∀ (fuel : Nat) (db : SequenceDB) (last : CandRep)
      (prev : Option (List (CandRep × TiepProjector))) (e : SequenceDB),
    e ∈ extend_tirp gen index min_support maximal_gap fuel db last prev →
    all_in_pairs e.db = true := by
  intro fuel
  induction fuel with
  | zero =>
    intro db last prev e he
    simp [extend_tirp] at he
  | succ fuel ih =>
    intro db last prev e he
    rw [extend_tirp] at he
    rcases List.mem_append.mp he with h1 | h2
    · by_cases hap : all_in_pairs db.db = true
      · have he1 : e = db := by simpa [hap] using h1
        rw [he1]
        exact hap
      · simp [hap] at h1
    · obtain ⟨t, tp, _, _, _, hk⟩ := mem_extendLoop h2
      exact ih _ _ _ _ hk

lemma countP_ttype_eq {l1 l2 : List Tiep} (h : l1.map Tiep.ttype = l2.map Tiep.ttype)
    (p : TType → Bool) :
    l1.countP (fun t => p t.ttype) = l2.countP (fun t => p t.ttype) := by
  have h1 : l1.countP (fun t => p t.ttype) = (l1.map Tiep.ttype).countP p := by
    rw [List.countP_map]
    rfl
  have h2 : l2.countP (fun t => p t.ttype) = (l2.map Tiep.ttype).countP p := by
    rw [List.countP_map]
    rfl
  rw [h1, h2, h]

/-- C1 (amended): the miner emits a TIRP only when the first record's
pattern instance has no pre-matched STI left (`__all_in_pairs`); and
provided every record's instance follows the extension discipline of
`ReachedInstance` — each FINISH extension's STI is pre-matched, as
`__is_tiep_valid_for_extension` enforces, and each START extension opens
an STI not already pre-matched, which holds unless an entity carries two
value-identical STIs — with all records extended along the same sequence
of tiep types, every record of an emitted database is balanced: equally
many START and FINISH tieps, with every FINISH strictly after the START
of the same STI in projection order.  Without the START clause the
balance claim is false: see `balanced_emission_counterexample`. -/
theorem balanced_emission :
    (∀ (gen : GenOracle) (index : TiepIndex) (min_support maximal_gap : Int) (fuel : Nat)
       (db : SequenceDB) (last : CandRep) (prev : Option (List (CandRep × TiepProjector)))
       (e : SequenceDB),
       e ∈ extend_tirp gen index min_support maximal_gap fuel db last prev →
       all_in_pairs e.db = true)
    ∧ (∀ (r0 : CoincidenceSequence × PatternInstance)
         (rs : List (CoincidenceSequence × PatternInstance)),
        (∀ r ∈ r0 :: rs, ReachedInstance r.2) →
        (∀ r ∈ rs, r.2.tieps.map Tiep.ttype = r0.2.tieps.map Tiep.ttype) →
        all_in_pairs (r0 :: rs) = true →
        ∀ r ∈ r0 :: rs, startCount r.2.tieps = finishCount r.2.tieps
          ∧ properly_paired r.2.tieps) := by
  constructor
  · exact fun gen index ms mg fuel db last prev e he =>
      extend_tirp_all_in_pairs gen index ms mg fuel db last prev e he
  · intro r0 rs hreach hsame hemit r hr
    have h0 : r0.2.pre_matched = [] := by
      have hl : r0.2.pre_matched.length = 0 := by simpa [all_in_pairs] using hemit
      exact List.length_eq_zero.mp hl
    have inv0 := reached_invariant (hreach r0 (List.mem_cons_self _ _))
    have hc0 : startCount r0.2.tieps = finishCount r0.2.tieps := by
      have hx := inv0.1
      rw [h0] at hx
      simpa using hx
    have invr := reached_invariant (hreach r hr)
    refine ⟨?_, invr.2.2⟩
    rcases List.mem_cons.mp hr with rfl | hmem
    · exact hc0
    · have hmap := hsame r hmem
      have hs := countP_ttype_eq hmap (fun x => x == TType.start)
      have hf := countP_ttype_eq hmap (fun x => x == TType.finish)
      simp only [startCount, finishCount] at hc0 ⊢
      rw [hs, hf]
      exact hc0

/-- Closed instantiation of `balanced_emission` on a one-record database
whose instance matched one START and its complementing FINISH. -/
theorem balanced_emission_witness :
    startCount (extend_pattern_instance (extend_pattern_instance PatternInstance.init
        ⟨0, 0, ⟨0, 1, 1⟩, TType.start, 0, none⟩)
        ⟨1, 1, ⟨0, 1, 1⟩, TType.finish, 0, none⟩).tieps =
      finishCount (extend_pattern_instance (extend_pattern_instance PatternInstance.init
        ⟨0, 0, ⟨0, 1, 1⟩, TType.start, 0, none⟩)
        ⟨1, 1, ⟨0, 1, 1⟩, TType.finish, 0, none⟩).tieps := by
  have hre : ReachedInstance (extend_pattern_instance (extend_pattern_instance
      PatternInstance.init ⟨0, 0, ⟨0, 1, 1⟩, TType.start, 0, none⟩)
      ⟨1, 1, ⟨0, 1, 1⟩, TType.finish, 0, none⟩) := by
    refine ReachedInstance.ext _ _ (ReachedInstance.ext _ _ ReachedInstance.init ?_ ?_) ?_ ?_
    · intro h
      exact absurd h (by decide)
    · intro _
      decide
    · intro _
      decide
    · intro h
      exact absurd h (by decide)
  have h := balanced_emission.2
    (⟨"E", [], false⟩, extend_pattern_instance (extend_pattern_instance PatternInstance.init
      ⟨0, 0, ⟨0, 1, 1⟩, TType.start, 0, none⟩)
      ⟨1, 1, ⟨0, 1, 1⟩, TType.finish, 0, none⟩) []
    (by
      intro r hr
      have hre2 : r = (⟨"E", [], false⟩, extend_pattern_instance (extend_pattern_instance
          PatternInstance.init ⟨0, 0, ⟨0, 1, 1⟩, TType.start, 0, none⟩)
          ⟨1, 1, ⟨0, 1, 1⟩, TType.finish, 0, none⟩) := by simpa using hr
      rw [hre2]
      exact hre)
    (by
      intro r hr
      exact absurd hr (List.not_mem_nil r))
    (by decide)
  exact (h _ (List.mem_cons_self _ _)).1

lemma extend_tirp_support (gen : GenOracle) (index : TiepIndex)
    (min_support maximal_gap : Int) :
    ∀ (fuel : Nat) (db : SequenceDB) (last : CandRep)
      (prev : Option (List (CandRep × TiepProjector))) (e : SequenceDB),
    e ∈ extend_tirp gen index min_support maximal_gap fuel db last prev →
    min_support ≤ (db.support : Int) → min_support ≤ (e.support : Int) := by
  intro fuel
  induction fuel with
  | zero =>
    intro db last prev e he _
    simp [extend_tirp] at he
  | succ fuel ih =>
    intro db last prev e he hdb
    rw [extend_tirp] at he
    rcases List.mem_append.mp he with h1 | h2
    · by_cases hap : all_in_pairs db.db = true
      · have he1 : e = db := by simpa [hap] using h1
        rw [he1]
        exact hdb
      · simp [hap] at h1
    · obtain ⟨t, tp, _, _, hms, hk⟩ := mem_extendLoop h2
      exact ih _ _ _ _ hk hms

lemma mem_foldl_append {α β : Type} (f : α → List β) :
    ∀ (l : List α) (init : List β) (e : β),
    e ∈ l.foldl (fun acc x => acc ++ f x) init → e ∈ init ∨ ∃ x ∈ l, e ∈ f x := by
  intro l
  induction l with
  | nil =>
    intro init e he
    exact Or.inl he
  | cons a rest ih =>
    intro init e he
    rcases ih (init ++ f a) e he with h | ⟨x, hx, hfx⟩
    · rcases List.mem_append.mp h with h' | h'
      · exact Or.inl h'
      · exact Or.inr ⟨a, List.mem_cons_self _ _, h'⟩
    · exact Or.inr ⟨x, List.mem_cons_of_mem _ hx, hfx⟩

lemma dget_some_of_mem {κ ν : Type} [DecidableEq κ] :
    ∀ {l : List (κ × ν)} {p : κ × ν}, p ∈ l →
    ∃ v', dget l p.1 = some v' ∧ (p.1, v') ∈ l := by
  intro l
  induction l with
  | nil =>
    intro p hp
    simp at hp
  | cons q rest ih =>
    intro p hp
    obtain ⟨k', v'⟩ := q
    rw [dget]
    by_cases hk : k' = p.1
    · subst hk
      exact ⟨v', by simp, List.mem_cons_self _ _⟩
    · rw [if_neg hk]
      rcases List.mem_cons.mp hp with rfl | hmem
      · simp at hk
      · obtain ⟨v', hv, hm⟩ := ih hmem
        exact ⟨v', hv, List.mem_cons_of_mem _ hm⟩

/-- C2: with `min_support = ceil(num_entities * min_support_percentage)`,
every TIRP database emitted during mining has vertical support at least
`min_support`: the initial pruning keeps only primitives supported by at
least `min_support` entities, the initial projection's support is that
primitive's supporting-entity count, and a projected database is recursed
into (hence can be emitted) only when its `support` field meets the
threshold. -/
theorem support_threshold (gen : GenOracle) (index : TiepIndex) (initial_seq_db : SequenceDB)
    (maximal_gap : Int) (fuel : Nat) (num_entities : Nat) (min_support_percentage : ℚ)
    (e : SequenceDB)
    (he : e ∈ discover_tirps gen index initial_seq_db
      (run_min_support num_entities min_support_percentage) maximal_gap fuel) :
    run_min_support num_entities min_support_percentage ≤ (e.support : Int) := by
  rw [discover_tirps] at he
  rcases mem_foldl_append _ _ _ _ he with h | ⟨p, hp, hfe⟩
  · simp at h
  · have hp' : p ∈ index.filter
        (fun q => !((q.2.supporting_entities.length : Int) <
          run_min_support num_entities min_support_percentage)) :=
      (List.mem_filter.mp hp).1
    apply extend_tirp_support _ _ _ _ _ _ _ _ _ hfe
    obtain ⟨mt, hdg, hmem2⟩ := dget_some_of_mem hp'
    have hflt : ¬ ((mt.supporting_entities.length : Int) <
        run_min_support num_entities min_support_percentage) := by
      have hx := (List.mem_filter.mp hmem2).2
      simpa using hx
    show run_min_support num_entities min_support_percentage ≤
      ((((dget (index.filter _) p.1).getD MasterTiep.empty).supporting_entities.length : Nat) : Int)
    rw [hdg]
    simpa using Int.not_lt.mp hflt

/-- Closed instantiation of `support_threshold`: one entity with the
single STI `[0,1]` of symbol 1, percentage 1, and a candidate oracle
proposing the complementing FINISH; the balanced two-tiep database is
emitted with support 1 = `ceil(1 * 1)`. -/
theorem support_threshold_witness :
    (⟨[(⟨"E", [], false⟩, extend_pattern_instance (extend_pattern_instance
        PatternInstance.init ⟨0, 0, ⟨0, 1, 1⟩, TType.start, 0, none⟩)
        ⟨1, 1, ⟨0, 1, 1⟩, TType.finish, 0, none⟩)], some [0], 1⟩ : SequenceDB) ∈
      discover_tirps
        (fun _ _ _ => [(⟨Pfx.plain, ⟨1, TType.finish⟩⟩, ⟨["E"], [(0, 0)]⟩)])
        [(⟨1, TType.start⟩, ⟨[("E", [⟨⟨0, 0, ⟨0, 1, 1⟩, TType.start, 0, none⟩,
            ⟨0, false, false, [⟨0, 0, ⟨0, 1, 1⟩, TType.start, 0, none⟩]⟩,
            [⟨1, false, false, [⟨1, 1, ⟨0, 1, 1⟩, TType.finish, 0, none⟩]⟩]⟩])], ["E"]⟩),
         (⟨1, TType.finish⟩, ⟨[("E", [⟨⟨1, 1, ⟨0, 1, 1⟩, TType.finish, 0, none⟩,
            ⟨1, false, false, [⟨1, 1, ⟨0, 1, 1⟩, TType.finish, 0, none⟩]⟩, []⟩])], ["E"]⟩)]
        ⟨[(⟨"E", [⟨0, false, false, [⟨0, 0, ⟨0, 1, 1⟩, TType.start, 0, none⟩]⟩,
            ⟨1, false, false, [⟨1, 1, ⟨0, 1, 1⟩, TType.finish, 0, none⟩]⟩], false⟩,
           PatternInstance.init)], none, 1⟩
        (run_min_support 1 1) 100 3
    ∧ run_min_support 1 1 ≤
      ((⟨[(⟨"E", [], false⟩, extend_pattern_instance (extend_pattern_instance
          PatternInstance.init ⟨0, 0, ⟨0, 1, 1⟩, TType.start, 0, none⟩)
          ⟨1, 1, ⟨0, 1, 1⟩, TType.finish, 0, none⟩)], some [0], 1⟩ : SequenceDB).support : Int) := by
  have hms : run_min_support 1 1 = 1 := by norm_num [run_min_support]
  have hmem : (⟨[(⟨"E", [], false⟩, extend_pattern_instance (extend_pattern_instance
        PatternInstance.init ⟨0, 0, ⟨0, 1, 1⟩, TType.start, 0, none⟩)
        ⟨1, 1, ⟨0, 1, 1⟩, TType.finish, 0, none⟩)], some [0], 1⟩ : SequenceDB) ∈
      discover_tirps
        (fun _ _ _ => [(⟨Pfx.plain, ⟨1, TType.finish⟩⟩, ⟨["E"], [(0, 0)]⟩)])
        [(⟨1, TType.start⟩, ⟨[("E", [⟨⟨0, 0, ⟨0, 1, 1⟩, TType.start, 0, none⟩,
            ⟨0, false, false, [⟨0, 0, ⟨0, 1, 1⟩, TType.start, 0, none⟩]⟩,
            [⟨1, false, false, [⟨1, 1, ⟨0, 1, 1⟩, TType.finish, 0, none⟩]⟩]⟩])], ["E"]⟩),
         (⟨1, TType.finish⟩, ⟨[("E", [⟨⟨1, 1, ⟨0, 1, 1⟩, TType.finish, 0, none⟩,
            ⟨1, false, false, [⟨1, 1, ⟨0, 1, 1⟩, TType.finish, 0, none⟩]⟩, []⟩])], ["E"]⟩)]
        ⟨[(⟨"E", [⟨0, false, false, [⟨0, 0, ⟨0, 1, 1⟩, TType.start, 0, none⟩]⟩,
            ⟨1, false, false, [⟨1, 1, ⟨0, 1, 1⟩, TType.finish, 0, none⟩]⟩], false⟩,
           PatternInstance.init)], none, 1⟩
        (run_min_support 1 1) 100 3 := by
    rw [hms]
    decide
  exact ⟨hmem, support_threshold _ _ _ 100 3 1 1 _ hmem⟩

/-- C10: `may_tirp_be_closed` returns false exactly when some projector
with full support (supporting-entity count equal to `db.support`) has a
START key, or has a FINISH key whose complement start primitive carries a
backward-extension entry whose intersection with the projector covers all
supporting entities; it returns true otherwise. -/
theorem may_tirp_be_closed_correct (pattern_seq_db : SequenceDB)
    (be_tieps_lists : List (PrimRep × List BackwardExtensionTiep)) :
    ∀ (tiep_projectors : List (CandRep × TiepProjector)),
    may_tirp_be_closed pattern_seq_db be_tieps_lists tiep_projectors = false ↔
    ∃ t tp, (t, tp) ∈ tiep_projectors
      ∧ pattern_seq_db.support = tp.supporting_entities.length
      ∧ (t.prim.ttype = TType.start
         ∨ (t.prim.ttype = TType.finish
            ∧ ∃ lst, (if (if t.pfx = Pfx.co then Pfx.plain else t.pfx) = Pfx.plain
                then dget be_tieps_lists ⟨t.prim.symbol, TType.start⟩ else none) = some lst
              ∧ do_be_fe_match_in_all_entities lst tp pattern_seq_db = true)) := by
  intro l
  induction l with
  | nil =>
    simp [may_tirp_be_closed]
  | cons p rest ih =>
    obtain ⟨t, tp⟩ := p
    rw [may_tirp_be_closed]
    by_cases hsup : pattern_seq_db.support = tp.supporting_entities.length
    · rw [if_pos hsup]
      by_cases hty : t.prim.ttype = TType.start
      · rw [if_pos hty]
        constructor
        · intro _
          exact ⟨t, tp, List.mem_cons_self _ _, hsup, Or.inl hty⟩
        · intro _
          rfl
      · rw [if_neg hty]
        have htyf : t.prim.ttype = TType.finish := by
          cases hx : t.prim.ttype with
          | start => exact absurd hx hty
          | finish => rfl
        dsimp only
        cases hlk : (if (if t.pfx = Pfx.co then Pfx.plain else t.pfx) = Pfx.plain
            then dget be_tieps_lists ⟨t.prim.symbol, TType.start⟩ else none) with
        | none =>
          dsimp only
          rw [ih]
          constructor
          · rintro ⟨t', tp', hm, hs, hd⟩
            exact ⟨t', tp', List.mem_cons_of_mem _ hm, hs, hd⟩
          · rintro ⟨t', tp', hm, hs, hd⟩
            rcases List.mem_cons.mp hm with heq | hm'
            · obtain ⟨h1, h2⟩ := Prod.mk.injEq .. ▸ heq
              subst h1
              subst h2
              rcases hd with hstart | ⟨_, lst, hlst, _⟩
              · exact absurd hstart hty
              · rw [hlk] at hlst
                exact absurd hlst (by simp)
            · exact ⟨t', tp', hm', hs, hd⟩
        | some lst =>
          dsimp only
          by_cases hbe : do_be_fe_match_in_all_entities lst tp pattern_seq_db = true
          · rw [if_pos hbe]
            constructor
            · intro _
              exact ⟨t, tp, List.mem_cons_self _ _, hsup, Or.inr ⟨htyf, lst, hlk, hbe⟩⟩
            · intro _
              rfl
          · rw [if_neg hbe]
            rw [ih]
            constructor
            · rintro ⟨t', tp', hm, hs, hd⟩
              exact ⟨t', tp', List.mem_cons_of_mem _ hm, hs, hd⟩
            · rintro ⟨t', tp', hm, hs, hd⟩
              rcases List.mem_cons.mp hm with heq | hm'
              · obtain ⟨h1, h2⟩ := Prod.mk.injEq .. ▸ heq
                subst h1
                subst h2
                rcases hd with hstart | ⟨_, lst', hlst, hbe'⟩
                · exact absurd hstart hty
                · rw [hlk] at hlst
                  have hleq : lst = lst' := Option.some.inj hlst
                  rw [← hleq] at hbe'
                  exact absurd hbe' hbe
              · exact ⟨t', tp', hm', hs, hd⟩
    · rw [if_neg hsup]
      rw [ih]
      constructor
      · rintro ⟨t', tp', hm, hs, hd⟩
        exact ⟨t', tp', List.mem_cons_of_mem _ hm, hs, hd⟩
      · rintro ⟨t', tp', hm, hs, hd⟩
        rcases List.mem_cons.mp hm with heq | hm'
        · obtain ⟨h1, h2⟩ := Prod.mk.injEq .. ▸ heq
          subst h1
          subst h2
          exact absurd hs hsup
        · exact ⟨t', tp', hm', hs, hd⟩

/-- Tiep index of a single entity `E` holding the STIs `(0,10,2)`,
`(2,5,1)` and `(2,5,1)` — the last two value-identical, as the input
format permits.  Built per the sequence-builder rules: slots at times
0 (`2+`), 2 (`1+`,`1+`), 5 (`1-`,`1-`), 10 (`2-`), occurrences in time
order with per-rep entity indices. -/
def dup_sti_index : TiepIndex :=
  [(⟨2, TType.start⟩, ⟨[("E", [⟨⟨0, 0, ⟨0, 10, 2⟩, TType.start, 0, none⟩,
      ⟨0, false, false, [⟨0, 0, ⟨0, 10, 2⟩, TType.start, 0, none⟩]⟩,
      [⟨1, false, false, [⟨1, 2, ⟨2, 5, 1⟩, TType.start, 0, none⟩,
          ⟨2, 2, ⟨2, 5, 1⟩, TType.start, 1, none⟩]⟩,
       ⟨2, false, false, [⟨3, 5, ⟨2, 5, 1⟩, TType.finish, 0, none⟩,
          ⟨4, 5, ⟨2, 5, 1⟩, TType.finish, 1, none⟩]⟩,
       ⟨3, false, false, [⟨5, 10, ⟨0, 10, 2⟩, TType.finish, 0, none⟩]⟩]⟩])], ["E"]⟩),
   (⟨1, TType.start⟩, ⟨[("E", [⟨⟨1, 2, ⟨2, 5, 1⟩, TType.start, 0, none⟩,
      ⟨1, false, false, [⟨1, 2, ⟨2, 5, 1⟩, TType.start, 0, none⟩,
          ⟨2, 2, ⟨2, 5, 1⟩, TType.start, 1, none⟩]⟩,
      [⟨2, false, false, [⟨3, 5, ⟨2, 5, 1⟩, TType.finish, 0, none⟩,
          ⟨4, 5, ⟨2, 5, 1⟩, TType.finish, 1, none⟩]⟩,
       ⟨3, false, false, [⟨5, 10, ⟨0, 10, 2⟩, TType.finish, 0, none⟩]⟩]⟩,
      ⟨⟨2, 2, ⟨2, 5, 1⟩, TType.start, 1, none⟩,
      ⟨1, false, false, [⟨1, 2, ⟨2, 5, 1⟩, TType.start, 0, none⟩,
          ⟨2, 2, ⟨2, 5, 1⟩, TType.start, 1, none⟩]⟩,
      [⟨2, false, false, [⟨3, 5, ⟨2, 5, 1⟩, TType.finish, 0, none⟩,
          ⟨4, 5, ⟨2, 5, 1⟩, TType.finish, 1, none⟩]⟩,
       ⟨3, false, false, [⟨5, 10, ⟨0, 10, 2⟩, TType.finish, 0, none⟩]⟩]⟩])], ["E"]⟩),
   (⟨1, TType.finish⟩, ⟨[("E", [⟨⟨3, 5, ⟨2, 5, 1⟩, TType.finish, 0, none⟩,
      ⟨2, false, false, [⟨3, 5, ⟨2, 5, 1⟩, TType.finish, 0, none⟩,
          ⟨4, 5, ⟨2, 5, 1⟩, TType.finish, 1, none⟩]⟩,
      [⟨3, false, false, [⟨5, 10, ⟨0, 10, 2⟩, TType.finish, 0, none⟩]⟩]⟩,
      ⟨⟨4, 5, ⟨2, 5, 1⟩, TType.finish, 1, none⟩,
      ⟨2, false, false, [⟨3, 5, ⟨2, 5, 1⟩, TType.finish, 0, none⟩,
          ⟨4, 5, ⟨2, 5, 1⟩, TType.finish, 1, none⟩]⟩,
      [⟨3, false, false, [⟨5, 10, ⟨0, 10, 2⟩, TType.finish, 0, none⟩]⟩]⟩])], ["E"]⟩),
   (⟨2, TType.finish⟩, ⟨[("E", [⟨⟨5, 10, ⟨0, 10, 2⟩, TType.finish, 0, none⟩,
      ⟨3, false, false, [⟨5, 10, ⟨0, 10, 2⟩, TType.finish, 0, none⟩]⟩, []⟩])], ["E"]⟩)]

/-- Initial sequence database of the entity of `dup_sti_index`. -/
def dup_sti_initial_db : SequenceDB :=
  ⟨[(⟨"E", [⟨0, false, false, [⟨0, 0, ⟨0, 10, 2⟩, TType.start, 0, none⟩]⟩,
      ⟨1, false, false, [⟨1, 2, ⟨2, 5, 1⟩, TType.start, 0, none⟩,
          ⟨2, 2, ⟨2, 5, 1⟩, TType.start, 1, none⟩]⟩,
      ⟨2, false, false, [⟨3, 5, ⟨2, 5, 1⟩, TType.finish, 0, none⟩,
          ⟨4, 5, ⟨2, 5, 1⟩, TType.finish, 1, none⟩]⟩,
      ⟨3, false, false, [⟨5, 10, ⟨0, 10, 2⟩, TType.finish, 0, none⟩]⟩], false⟩,
     PatternInstance.init)], none, 1⟩

/-- C1 counterexample: running the miner with its real candidate
generator on the entity with STIs `(0,10,2)`, `(2,5,1)`, `(2,5,1)`
(min_support 1, maximal gap 100) emits an unbalanced TIRP.  STI equality
is by value, so after matching `2+`, `1+` and the CO candidate `_1+`
(produced by the recursive-regime CO augmentation of
`__add_relevant_meet_co_tieps_to_tiep_projectors`), the duplicate START's
STI is already pre-matched and `extend_pattern_instance` takes its
removal branch; matching `2-` then empties `pre_matched`, so the pattern
passes `__all_in_pairs` and is emitted with tiep types
START,START,START,FINISH — three STARTs against one FINISH. -/
theorem balanced_emission_counterexample :
    ((discover_tirps_real dup_sti_index dup_sti_initial_db 1 100 8).any (fun e =>
      all_in_pairs e.db &&
      e.db.any (fun r => !(startCount r.2.tieps == finishCount r.2.tieps)))) = true
    ∧ ((discover_tirps_real dup_sti_index dup_sti_initial_db 1 100 8).any (fun e =>
      e.db.any (fun r => r.2.pre_matched.isEmpty &&
        r.2.tieps.map Tiep.ttype ==
          [TType.start, TType.start, TType.start, TType.finish]))) = true := by
  constructor
  · decide
  · decide
